import Mathlib

/-!
Verification of the chess engine in src/script.js against its specification.

The JavaScript source is shallowly embedded: the global `gameState` object
becomes an explicit `GameState` value threaded through the functions that read
it, the 8x8 board array becomes a list of lists of optional pieces, JS numbers
used as board coordinates become `Int`, JS numbers used as evaluation scores
become `ℚ` (JS floats on the values actually produced: integers and
half-integers), and the JS values `-Infinity` / `Infinity` used by the search
become the bottom / top elements of `WithBot (WithTop ℚ)`.  Functions keep
their source names.  JS code that can throw (reading a property of
null / undefined) is embedded as `Option`-returning code.
-/

namespace ChessGame

/-- Color of a piece or player, as the JS strings for white and black. -/
inductive Color where
  | white
  | black
deriving DecidableEq, Repr

/-- Opponent color, as the JS ternary on the color string. -/
def Color.opp : Color → Color
  | .white => .black
  | .black => .white

/-- Piece kind, as the JS type strings. -/
inductive PieceType where
  | pawn
  | rook
  | knight
  | bishop
  | queen
  | king
deriving DecidableEq, Repr

/-- A piece object: type and color, as in the JS board cells. -/
structure Piece where
  type : PieceType
  color : Color
deriving DecidableEq, Repr

/-- Castling side tag carried by a generated castling move. -/
inductive CastleSide where
  | kingSide
  | queenSide
deriving DecidableEq, Repr

/-- A generated move object: destination plus the optional flags the JS code
attaches (enPassant, castling).  Absent JS properties are the defaults. -/
structure MoveTo where
  row : Int
  col : Int
  enPassant : Bool := false
  castling : Option CastleSide := none
deriving DecidableEq, Repr

/-- The board: an array of 8 rows of 8 cells, each an optional piece. -/
abbrev Board := List (List (Option Piece))

/-- Game status, as the JS status strings. -/
inductive GameStatus where
  | active
  | check
  | checkmate
  | stalemate
deriving DecidableEq, Repr

/-- Game mode: player-vs-player or player-vs-computer. -/
inductive GameMode where
  | pvp
  | pvc
deriving DecidableEq, Repr

/-- AI difficulty setting. -/
inductive Difficulty where
  | easy
  | medium
  | hard
deriving DecidableEq, Repr

/-- Per-side boolean pair, for castling rights and rook-moved flags. -/
structure SideFlags where
  kingSide : Bool
  queenSide : Bool
deriving DecidableEq, Repr

/-- One executed move as pushed onto moveHistory by makeMove. -/
structure HistMove where
  fromRow : Int
  fromCol : Int
  toRow : Int
  toCol : Int
  piece : Piece
  captured : Option Piece
deriving DecidableEq, Repr

/-- The global gameState object (fields the core logic reads or writes;
UI-only fields selectedSquare / legalMoves / isAiThinking are handled at the
call sites that use them). -/
structure GameState where
  board : Board
  currentTurn : Color
  gameStatus : GameStatus
  moveHistory : List HistMove
  enPassantTarget : Option (Int × Int)
  castlingRights : Color → SideFlags
  kingMoved : Color → Bool
  rookMoved : Color → SideFlags
  gameMode : GameMode
  aiDifficulty : Difficulty

/-- Reading board[row][col].  The JS code only indexes inside the guards of
isValidSquare (or at constant in-range indices); out-of-range reads are
embedded as none. -/
def bget (b : Board) (row col : Int) : Option Piece :=
  if 0 ≤ row ∧ 0 ≤ col then
    match b.get? row.toNat with
    | some r => match r.get? col.toNat with
      | some cell => cell
      | none => none
    | none => none
  else none

/-- Writing board[row][col] = v (functionally). -/
def bset (b : Board) (row col : Int) (v : Option Piece) : Board :=
  if 0 ≤ row ∧ 0 ≤ col then
    match b.get? row.toNat with
    | some r => b.set row.toNat (r.set col.toNat v)
    | none => b
  else b

/-- The 64 squares in the row-major order of the JS double loops. -/
def squares : List (Int × Int) :=
  (List.range 8).flatMap (fun r => (List.range 8).map (fun c => ((r : Int), (c : Int))))

/-- HELPER: CHECK IF SQUARE IS VALID (isValidSquare). -/
def isValidSquare (row col : Int) : Bool :=
  decide (0 ≤ row) && decide (row < 8) && decide (0 ≤ col) && decide (col < 8)

/-- One sliding ray: the JS inner for-loop over i = 1..7 along direction
(dRow, dCol), stopping at the edge, before an own piece, or on an enemy piece.
Shared by getRookMoves / getBishopMoves and their Temp variants, whose JS
bodies are identical except for which board they read. -/
def slideFrom (board : Board) (color : Color) (row col dRow dCol : Int) :
    Nat → Int → List MoveTo
  | 0, _ => []
  | fuel + 1, i =>
    let newRow := row + dRow * i
    let newCol := col + dCol * i
    if isValidSquare newRow newCol then
      match bget board newRow newCol with
      | none => { row := newRow, col := newCol } ::
          slideFrom board color row col dRow dCol fuel (i + 1)
      | some target =>
        if target.color != color then [{ row := newRow, col := newCol }] else []
    else []

/-- TEMPORARY MOVE GENERATOR getRookMovesTemp: rook rays on a given board. -/
def getRookMovesTemp (row col : Int) (color : Color) (board : Board) : List MoveTo :=
  [((0 : Int), (1 : Int)), (0, -1), (1, 0), (-1, 0)].flatMap
    (fun d => slideFrom board color row col d.1 d.2 7 1)

/-- TEMPORARY MOVE GENERATOR getBishopMovesTemp: bishop rays on a given board. -/
def getBishopMovesTemp (row col : Int) (color : Color) (board : Board) : List MoveTo :=
  [((1 : Int), (1 : Int)), (1, -1), (-1, 1), (-1, -1)].flatMap
    (fun d => slideFrom board color row col d.1 d.2 7 1)

/-- TEMPORARY MOVE GENERATOR getKnightMovesTemp: knight offsets on a given board. -/
def getKnightMovesTemp (row col : Int) (color : Color) (board : Board) : List MoveTo :=
  [((-2 : Int), (-1 : Int)), (-2, 1), (-1, -2), (-1, 2), (1, -2), (1, 2), (2, -1), (2, 1)].flatMap
    (fun d =>
      let newRow := row + d.1
      let newCol := col + d.2
      if isValidSquare newRow newCol then
        match bget board newRow newCol with
        | none => [{ row := newRow, col := newCol }]
        | some target =>
          if target.color != color then [{ row := newRow, col := newCol }] else []
      else [])

/-- ROOK MOVES (getRookMoves): reads the game board. -/
def getRookMoves (s : GameState) (row col : Int) (color : Color) : List MoveTo :=
  getRookMovesTemp row col color s.board

/-- BISHOP MOVES (getBishopMoves): reads the game board. -/
def getBishopMoves (s : GameState) (row col : Int) (color : Color) : List MoveTo :=
  getBishopMovesTemp row col color s.board

/-- KNIGHT MOVES (getKnightMoves): reads the game board. -/
def getKnightMoves (s : GameState) (row col : Int) (color : Color) : List MoveTo :=
  getKnightMovesTemp row col color s.board

/-- QUEEN MOVES (getQueenMoves): rook moves then bishop moves. -/
def getQueenMoves (s : GameState) (row col : Int) (color : Color) : List MoveTo :=
  getRookMoves s row col color ++ getBishopMoves s row col color

/-- PAWN MOVES (getPawnMoves): forward one, forward two from the start row,
diagonal captures, and the en-passant capture onto the en-passant target. -/
def getPawnMoves (s : GameState) (row col : Int) (color : Color) : List MoveTo :=
  let direction : Int := if color == .white then -1 else 1
  let startRow : Int := if color == .white then 6 else 1
  let forward :=
    if isValidSquare (row + direction) col && (bget s.board (row + direction) col).isNone then
      { row := row + direction, col := col } ::
        (if row == startRow && (bget s.board (row + 2 * direction) col).isNone then
          [{ row := row + 2 * direction, col := col }]
        else [])
    else []
  let diag := [(-1 : Int), 1].flatMap (fun offset =>
    let newRow := row + direction
    let newCol := col + offset
    if isValidSquare newRow newCol then
      (match bget s.board newRow newCol with
       | some target =>
         if target.color != color then [{ row := newRow, col := newCol }] else []
       | none => []) ++
      (match s.enPassantTarget with
       | some ep =>
         if ep.1 == newRow && ep.2 == newCol then
           [{ row := newRow, col := newCol, enPassant := true }]
         else []
       | none => [])
    else [])
  forward ++ diag

/-- GET ATTACK SQUARES (getAttackSquares): like move generation but pawns give
only their two diagonal attack squares and the king gives only the 8 adjacent
squares (no castling, no en passant). -/
def getAttackSquares (row col : Int) (piece : Piece) (board : Board) : List MoveTo :=
  match piece.type with
  | .pawn =>
    let direction : Int := if piece.color == .white then -1 else 1
    [(-1 : Int), 1].flatMap (fun offset =>
      let newRow := row + direction
      let newCol := col + offset
      if isValidSquare newRow newCol then [{ row := newRow, col := newCol }] else [])
  | .rook => getRookMovesTemp row col piece.color board
  | .knight => getKnightMovesTemp row col piece.color board
  | .bishop => getBishopMovesTemp row col piece.color board
  | .queen => getRookMovesTemp row col piece.color board ++
      getBishopMovesTemp row col piece.color board
  | .king =>
    [((-1 : Int), (-1 : Int)), (-1, 0), (-1, 1), (0, -1), (0, 1), (1, -1), (1, 0), (1, 1)].flatMap
      (fun d =>
        let newRow := row + d.1
        let newCol := col + d.2
        if isValidSquare newRow newCol then [{ row := newRow, col := newCol }] else [])

/-- CHECK IF SQUARE IS UNDER ATTACK on an explicit board
(isSquareUnderAttackTemp). -/
def isSquareUnderAttackTemp (row col : Int) (defenderColor : Color) (board : Board) : Bool :=
  let attackerColor := if defenderColor == .white then Color.black else .white
  squares.any (fun rc =>
    match bget board rc.1 rc.2 with
    | some piece =>
      piece.color == attackerColor &&
        (getAttackSquares rc.1 rc.2 piece board).any (fun sq => sq.row == row && sq.col == col)
    | none => false)

/-- CHECK IF SQUARE IS UNDER ATTACK on the game board (isSquareUnderAttack). -/
def isSquareUnderAttack (s : GameState) (row col : Int) (defenderColor : Color) : Bool :=
  isSquareUnderAttackTemp row col defenderColor s.board

/-- Row-major scan for the first king of a color, as the JS double loop with
early break in wouldBeInCheck and isKingInCheck. -/
def findKingFirst (board : Board) (color : Color) : Option (Int × Int) :=
  squares.find? (fun rc =>
    match bget board rc.1 rc.2 with
    | some p => p.type == .king && p.color == color
    | none => false)

/-- CHECK IF MOVE WOULD PUT KING IN CHECK (wouldBeInCheck): relocate the piece
on a copy of the board (destination first, then clear the origin) and test the
king square.  When no king is found the JS attack test compares against
undefined coordinates and is false. -/
def wouldBeInCheck (s : GameState) (fromRow fromCol toRow toCol : Int) (color : Color) : Bool :=
  let tempBoard := bset (bset s.board toRow toCol (bget s.board fromRow fromCol)) fromRow fromCol none
  match findKingFirst tempBoard color with
  | some rc => isSquareUnderAttackTemp rc.1 rc.2 color tempBoard
  | none => false

/-- CHECK IF KING IS IN CHECK (isKingInCheck) on the game board.  When no king
is found the JS attack test compares against undefined coordinates and is
false. -/
def isKingInCheck (s : GameState) (color : Color) : Bool :=
  match findKingFirst s.board color with
  | some rc => isSquareUnderAttack s rc.1 rc.2 color
  | none => false

/-- CASTLING MOVES (getCastlingMoves): king not moved, king not in check,
rights still set and rook not moved, squares between empty, transit squares
not attacked. -/
def getCastlingMoves (s : GameState) (_row _col : Int) (color : Color) : List MoveTo :=
  if s.kingMoved color then []
  else if isKingInCheck s color then []
  else
    let backRank : Int := if color == .white then 7 else 0
    (if (s.castlingRights color).kingSide && !(s.rookMoved color).kingSide then
      if (bget s.board backRank 5).isNone && (bget s.board backRank 6).isNone then
        if !(isSquareUnderAttack s backRank 5 color) && !(isSquareUnderAttack s backRank 6 color) then
          [{ row := backRank, col := 6, castling := some .kingSide }]
        else []
      else []
    else []) ++
    (if (s.castlingRights color).queenSide && !(s.rookMoved color).queenSide then
      if (bget s.board backRank 1).isNone && (bget s.board backRank 2).isNone &&
          (bget s.board backRank 3).isNone then
        if !(isSquareUnderAttack s backRank 2 color) && !(isSquareUnderAttack s backRank 3 color) then
          [{ row := backRank, col := 2, castling := some .queenSide }]
        else []
      else []
    else [])

/-- KING MOVES (getKingMoves): 8 adjacent squares, then castling moves. -/
def getKingMoves (s : GameState) (row col : Int) (color : Color) : List MoveTo :=
  ([((-1 : Int), (-1 : Int)), (-1, 0), (-1, 1), (0, -1), (0, 1), (1, -1), (1, 0), (1, 1)].flatMap
    (fun d =>
      let newRow := row + d.1
      let newCol := col + d.2
      if isValidSquare newRow newCol then
        match bget s.board newRow newCol with
        | none => [{ row := newRow, col := newCol }]
        | some target =>
          if target.color != color then [{ row := newRow, col := newCol }] else []
      else [])) ++ getCastlingMoves s row col color

/-- GET LEGAL MOVES (getLegalMoves): per-piece pseudo-legal moves filtered by
wouldBeInCheck. -/
def getLegalMoves (s : GameState) (row col : Int) : List MoveTo :=
  match bget s.board row col with
  | none => []
  | some piece =>
    let moves :=
      match piece.type with
      | .pawn => getPawnMoves s row col piece.color
      | .rook => getRookMoves s row col piece.color
      | .knight => getKnightMoves s row col piece.color
      | .bishop => getBishopMoves s row col piece.color
      | .queen => getQueenMoves s row col piece.color
      | .king => getKingMoves s row col piece.color
    moves.filter (fun move => !(wouldBeInCheck s row col move.row move.col piece.color))

/-- CHECK IF PLAYER HAS LEGAL MOVES (playerHasLegalMoves). -/
def playerHasLegalMoves (s : GameState) (color : Color) : Bool :=
  squares.any (fun rc =>
    match bget s.board rc.1 rc.2 with
    | some piece => piece.color == color && !(getLegalMoves s rc.1 rc.2).isEmpty
    | none => false)

/-- CHECK GAME STATUS (checkGameStatus) for the current turn, returning the
status it stores in gameState.gameStatus. -/
def checkGameStatus (s : GameState) : GameStatus :=
  let currentColor := s.currentTurn
  let inCheck := isKingInCheck s currentColor
  let hasLegalMoves := playerHasLegalMoves s currentColor
  if inCheck then
    if !hasLegalMoves then .checkmate else .check
  else
    if !hasLegalMoves then .stalemate else .active

/-- AI-move trigger test at the end of makeMove: game mode pvc, black to move,
status active or check (the setTimeout(makeComputerMove) guard). -/
def aiMoveTriggered (s : GameState) : Bool :=
  s.gameMode == .pvc && s.currentTurn == .black &&
    (s.gameStatus == .active || s.gameStatus == .check)

/-- MAKE MOVE (makeMove): executes a move on the live game state.  The JS code
reads the move flags from gameState.legalMoves, which the two call sites
(handleSquareClick and makeComputerMove) always set to
getLegalMoves(fromRow, fromCol) beforehand.  A null piece at the origin makes
the JS code throw; embedded as none.  Returns the new state and the AI-move
trigger decision. -/
def makeMove (s : GameState) (fromRow fromCol toRow toCol : Int) :
    Option (GameState × Bool) :=
  match bget s.board fromRow fromCol with
  | none => none
  | some piece =>
    let capturedPiece := bget s.board toRow toCol
    let legal := getLegalMoves s fromRow fromCol
    let move? := legal.find? (fun m => m.row == toRow && m.col == toCol)
    let b1 :=
      match move? with
      | some m =>
        if m.enPassant then
          let captureRow := if piece.color == .white then toRow + 1 else toRow - 1
          bset s.board captureRow toCol none
        else s.board
      | none => s.board
    let b2 :=
      match move? with
      | some m =>
        match m.castling with
        | some .kingSide =>
          let backRank : Int := if piece.color == .white then 7 else 0
          bset (bset b1 backRank 5 (bget b1 backRank 7)) backRank 7 none
        | some .queenSide =>
          let backRank : Int := if piece.color == .white then 7 else 0
          bset (bset b1 backRank 3 (bget b1 backRank 0)) backRank 0 none
        | none => b1
      | none => b1
    let b3 := bset (bset b2 toRow toCol (some piece)) fromRow fromCol none
    let newEnPassant : Option (Int × Int) :=
      if piece.type == .pawn && (toRow - fromRow).natAbs == 2 then
        some ((fromRow + toRow) / 2, toCol)
      else none
    let newKingMoved : Color → Bool := fun c =>
      if piece.type == .king && c == piece.color then true else s.kingMoved c
    let newRookMoved : Color → SideFlags := fun c =>
      let old := s.rookMoved c
      if piece.type == .rook && c == piece.color then
        let backRank : Int := if piece.color == .white then 7 else 0
        if fromRow == backRank then
          if fromCol == 0 then { old with queenSide := true }
          else if fromCol == 7 then { old with kingSide := true }
          else old
        else old
      else old
    let b4 :=
      if piece.type == .pawn && toRow == (if piece.color == .white then (0 : Int) else 7) then
        bset b3 toRow toCol (some { type := .queen, color := piece.color })
      else b3
    let newHistory := s.moveHistory ++
      [{ fromRow := fromRow, fromCol := fromCol, toRow := toRow, toCol := toCol,
         piece := piece, captured := capturedPiece }]
    let newTurn := if s.currentTurn == .white then Color.black else .white
    let sMid : GameState :=
      { s with
        board := b4
        enPassantTarget := newEnPassant
        kingMoved := newKingMoved
        rookMoved := newRookMoved
        moveHistory := newHistory
        currentTurn := newTurn }
    let sNew := { sMid with gameStatus := checkGameStatus sMid }
    some (sNew, aiMoveTriggered sNew)

/-- Executable path of handleSquareClick for a select-then-move interaction:
the game is not over, black is not blocked by pvc mode, the origin holds a
piece of the side to move, and the destination is one of its legal moves;
then makeMove runs.  (The isAiThinking guard is a UI flag that is false
whenever handleSquareClick can run a human move.) -/
def tryMove (s : GameState) (fromRow fromCol toRow toCol : Int) : Option GameState :=
  if s.gameStatus == .checkmate || s.gameStatus == .stalemate then none
  else if s.gameMode == .pvc && s.currentTurn == .black then none
  else
    match bget s.board fromRow fromCol with
    | none => none
    | some piece =>
      if piece.color == s.currentTurn &&
          (getLegalMoves s fromRow fromCol).any (fun m => m.row == toRow && m.col == toCol) then
        (makeMove s fromRow fromCol toRow toCol).map Prod.fst
      else none

/-- Sequence of user moves played through tryMove; a reachability witness. -/
def playMoves (s : GameState) : List (Int × Int × Int × Int) → Option GameState
  | [] => some s
  | mv :: rest =>
    match tryMove s mv.1 mv.2.1 mv.2.2.1 mv.2.2.2 with
    | some s1 => playMoves s1 rest
    | none => none

/-- Back-rank piece order used by initializeBoard. -/
def backRowPieces : List PieceType :=
  [.rook, .knight, .bishop, .queen, .king, .bishop, .knight, .rook]

/-- INITIALIZE BOARD (initializeBoard): the standard starting position. -/
def initializeBoard : Board :=
  [ backRowPieces.map (fun t => some { type := t, color := Color.black }),
    List.replicate 8 (some { type := PieceType.pawn, color := Color.black }),
    List.replicate 8 none,
    List.replicate 8 none,
    List.replicate 8 none,
    List.replicate 8 none,
    List.replicate 8 (some { type := PieceType.pawn, color := Color.white }),
    backRowPieces.map (fun t => some { type := t, color := Color.white }) ]

/-- The initial gameState literal from the top of script.js (board still
empty; initializeBoard fills it). -/
def defaultGameState : GameState :=
  { board := []
    currentTurn := .white
    gameStatus := .active
    moveHistory := []
    enPassantTarget := none
    castlingRights := fun _ => { kingSide := true, queenSide := true }
    kingMoved := fun _ => false
    rookMoved := fun _ => { kingSide := false, queenSide := false }
    gameMode := .pvp
    aiDifficulty := .medium }

/-- The state after initializeBoard has run on the fresh gameState. -/
def freshGameState : GameState := { defaultGameState with board := initializeBoard }

/-- PIECE_VALUES: material values for evaluation. -/
def PIECE_VALUES : PieceType → ℤ
  | .pawn => 100
  | .knight => 320
  | .bishop => 330
  | .rook => 500
  | .queen => 900
  | .king => 20000

/-- Reading TABLE[row][col] for an 8x8 score table; the JS indices are always
in range (0 is returned outside, harmlessly). -/
def tableGet (t : List (List ℤ)) (row col : Int) : ℤ :=
  if 0 ≤ row ∧ 0 ≤ col then
    match t.get? row.toNat with
    | some r => (r.get? col.toNat).getD 0
    | none => 0
  else 0

/-- PIECE_SQUARE_TABLES: positional bonus tables, defined from white's
viewpoint. -/
def PIECE_SQUARE_TABLES : PieceType → List (List ℤ)
  | .pawn =>
    [[0, 0, 0, 0, 0, 0, 0, 0],
     [50, 50, 50, 50, 50, 50, 50, 50],
     [10, 10, 20, 30, 30, 20, 10, 10],
     [5, 5, 10, 25, 25, 10, 5, 5],
     [0, 0, 0, 20, 20, 0, 0, 0],
     [5, -5, -10, 0, 0, -10, -5, 5],
     [5, 10, 10, -20, -20, 10, 10, 5],
     [0, 0, 0, 0, 0, 0, 0, 0]]
  | .knight =>
    [[-50, -40, -30, -30, -30, -30, -40, -50],
     [-40, -20, 0, 0, 0, 0, -20, -40],
     [-30, 0, 10, 15, 15, 10, 0, -30],
     [-30, 5, 15, 20, 20, 15, 5, -30],
     [-30, 0, 15, 20, 20, 15, 0, -30],
     [-30, 5, 10, 15, 15, 10, 5, -30],
     [-40, -20, 0, 5, 5, 0, -20, -40],
     [-50, -40, -30, -30, -30, -30, -40, -50]]
  | .bishop =>
    [[-20, -10, -10, -10, -10, -10, -10, -20],
     [-10, 0, 0, 0, 0, 0, 0, -10],
     [-10, 0, 5, 10, 10, 5, 0, -10],
     [-10, 5, 5, 10, 10, 5, 5, -10],
     [-10, 0, 10, 10, 10, 10, 0, -10],
     [-10, 10, 10, 10, 10, 10, 10, -10],
     [-10, 5, 0, 0, 0, 0, 5, -10],
     [-20, -10, -10, -10, -10, -10, -10, -20]]
  | .rook =>
    [[0, 0, 0, 0, 0, 0, 0, 0],
     [5, 10, 10, 10, 10, 10, 10, 5],
     [-5, 0, 0, 0, 0, 0, 0, -5],
     [-5, 0, 0, 0, 0, 0, 0, -5],
     [-5, 0, 0, 0, 0, 0, 0, -5],
     [-5, 0, 0, 0, 0, 0, 0, -5],
     [-5, 0, 0, 0, 0, 0, 0, -5],
     [0, 0, 0, 5, 5, 0, 0, 0]]
  | .queen =>
    [[-20, -10, -10, -5, -5, -10, -10, -20],
     [-10, 0, 0, 0, 0, 0, 0, -10],
     [-10, 0, 5, 5, 5, 5, 0, -10],
     [-5, 0, 5, 5, 5, 5, 0, -5],
     [0, 0, 5, 5, 5, 5, 0, -5],
     [-10, 5, 5, 5, 5, 5, 0, -10],
     [-10, 0, 5, 0, 0, 0, 0, -10],
     [-20, -10, -10, -5, -5, -10, -10, -20]]
  | .king =>
    [[-30, -40, -40, -50, -50, -40, -40, -30],
     [-30, -40, -40, -50, -50, -40, -40, -30],
     [-30, -40, -40, -50, -50, -40, -40, -30],
     [-30, -40, -40, -50, -50, -40, -40, -30],
     [-20, -30, -30, -40, -40, -30, -30, -20],
     [-10, -20, -20, -20, -20, -20, -20, -10],
     [20, 20, 0, 0, 0, 0, 20, 20],
     [20, 30, 10, 0, 0, 10, 30, 20]]

/-- KING_ENDGAME_TABLE: endgame king-activity table. -/
def KING_ENDGAME_TABLE : List (List ℤ) :=
  [[-50, -30, -30, -30, -30, -30, -30, -50],
   [-30, -30, 0, 0, 0, 0, -30, -30],
   [-30, -10, 20, 30, 30, 20, -10, -30],
   [-30, -10, 30, 40, 40, 30, -10, -30],
   [-30, -10, 30, 40, 40, 30, -10, -30],
   [-30, -10, 20, 30, 30, 20, -10, -30],
   [-30, -20, -10, 0, 0, -10, -20, -30],
   [-50, -40, -30, -20, -20, -30, -40, -50]]

/-- ENDGAME DETECTION (isEndgame): no queens left, or total non-king material
below 1600. -/
def isEndgame (board : Board) : Bool :=
  let qm := squares.foldl
    (fun (acc : ℕ × ℤ) rc =>
      match bget board rc.1 rc.2 with
      | none => acc
      | some p =>
        if p.type == .king then acc
        else ((if p.type == .queen then acc.1 + 1 else acc.1), acc.2 + PIECE_VALUES p.type))
    (0, 0)
  qm.1 == 0 || decide (qm.2 < 1600)

/-- Manhattan distance between two squares (kingDistance). -/
def kingDistance (r1 c1 r2 c2 : Int) : ℤ := |r1 - r2| + |c1 - c2|

/-- One step of the evaluatePosition loop body: accumulate the signed
material-plus-positional value of a square and track the two king positions
(last occurrence wins, as the JS loop overwrites without break). -/
def evalStep (board : Board) (color : Color) (endgame : Bool)
    (acc : ℚ × Option (Int × Int) × Option (Int × Int)) (rc : Int × Int) :
    ℚ × Option (Int × Int) × Option (Int × Int) :=
  match bget board rc.1 rc.2 with
  | none => acc
  | some piece =>
    let aiK := if piece.type == .king && piece.color == color then some rc else acc.2.1
    let eK := if piece.type == .king && piece.color != color then some rc else acc.2.2
    let pieceValue : ℤ := PIECE_VALUES piece.type
    let tableRow : Int := if piece.color == .white then 7 - rc.1 else rc.1
    let positionBonus : ℤ :=
      if piece.type == .king && endgame then
        if piece.color == color then tableGet KING_ENDGAME_TABLE tableRow rc.2
        else -(tableGet KING_ENDGAME_TABLE tableRow rc.2)
      else tableGet (PIECE_SQUARE_TABLES piece.type) tableRow rc.2
    let totalValue := pieceValue + positionBonus
    (if piece.color == color then acc.1 + (totalValue : ℚ) else acc.1 - (totalValue : ℚ),
      aiK, eK)

/-- POSITION EVALUATION (evaluatePosition): signed material and positional
sum, plus in endgame (when both kings were found) 15 times the enemy king's
centre distance (a JS float: the centre is at coordinates 3.5) and 5 times
(14 minus the king Manhattan distance). -/
def evaluatePosition (board : Board) (color : Color) : ℚ :=
  let endgame := isEndgame board
  let r := squares.foldl (evalStep board color endgame) (0, none, none)
  match r.2.1, r.2.2 with
  | some aiK, some eK =>
    if endgame then
      let enemyCentreDistance : ℚ :=
        max |(3.5 : ℚ) - (eK.1 : ℚ)| |(3.5 : ℚ) - (eK.2 : ℚ)|
      let kingsDistance : ℤ := kingDistance aiK.1 aiK.2 eK.1 eK.2
      r.1 + enemyCentreDistance * 15 + ((14 - kingsDistance : ℤ) : ℚ) * 5
    else r.1
  | _, _ => r.1

/-- A move record built by getAllPossibleMoves: origin, destination, and the
generated move object with its flags. -/
structure MoveRec where
  fromSq : Int × Int
  toSq : Int × Int
  moveData : MoveTo
deriving DecidableEq, Repr

/-- MVV-LVA score of a move used by orderMoves: 10 times the victim value
minus the attacker value; 0 for non-captures. -/
def mvvScore (board : Board) (m : MoveRec) : ℤ :=
  match bget board m.toSq.1 m.toSq.2 with
  | some victim =>
    PIECE_VALUES victim.type * 10 -
      (match bget board m.fromSq.1 m.fromSq.2 with
       | some attacker => PIECE_VALUES attacker.type
       | none => 0)
  | none => 0

/-- Stable descending insertion used by orderMoves. -/
def insertByScore (board : Board) (m : MoveRec) : List MoveRec → List MoveRec
  | [] => [m]
  | x :: xs =>
    if mvvScore board x ≤ mvvScore board m then m :: x :: xs
    else x :: insertByScore board m xs

/-- MOVE ORDERING (orderMoves): stable sort by descending MVV-LVA score. -/
def orderMoves (moves : List MoveRec) (board : Board) : List MoveRec :=
  moves.foldr (insertByScore board) []

/-- getLegalMovesForBoard: the JS code temporarily swaps the global board and
calls getLegalMoves; all other gameState fields (en-passant target, castling
flags) are read from the live state. -/
def getLegalMovesForBoard (s : GameState) (board : Board) (row col : Int) : List MoveTo :=
  getLegalMoves { s with board := board } row col

/-- getAllPossibleMoves: all legal moves of a color on a board, in row-major
square order. -/
def getAllPossibleMoves (s : GameState) (board : Board) (color : Color) : List MoveRec :=
  squares.flatMap (fun rc =>
    match bget board rc.1 rc.2 with
    | some piece =>
      if piece.color == color then
        (getLegalMovesForBoard s board rc.1 rc.2).map
          (fun move => { fromSq := rc, toSq := (move.row, move.col), moveData := move })
      else []
    | none => [])

/-- makeMoveOnBoard: the simplified move application used inside the search:
copy the board, set the destination to the origin piece, clear the origin.
No en-passant removal, no castling rook move, no promotion. -/
def makeMoveOnBoard (board : Board) (fromRow fromCol toRow toCol : Int) : Board :=
  let piece := bget board fromRow fromCol
  bset (bset board toRow toCol piece) fromRow fromCol none

/-- isKingInCheckOnBoard: the JS code swaps the global board and calls
isKingInCheck. -/
def isKingInCheckOnBoard (s : GameState) (board : Board) (color : Color) : Bool :=
  isKingInCheck { s with board := board } color

/-- Search values: JS numbers together with the -Infinity / Infinity
sentinels used by the alpha-beta search. -/
abbrev EVal := WithBot (WithTop ℚ)

/-- A finite search value. -/
def fq (q : ℚ) : EVal := ((q : WithTop ℚ) : EVal)

/-- Subtraction of a finite penalty from a search value (JS subtraction:
infinities absorb). -/
def esub (v : EVal) (q : ℚ) : EVal := v.map (fun w => w.map (fun x => x - q))

/-- Terminal score of a no-move node in minimax: a depth-scaled mate score
(negative for the maximizing side) when the side to move is in check, else 0
for stalemate. -/
def terminalScore (s : GameState) (board : Board) (currentColor : Color)
    (isMaximizing : Bool) (depth : Nat) : ℚ :=
  if isKingInCheckOnBoard s board currentColor then
    if isMaximizing then -100000 - (depth : ℚ) * 100 else 100000 + (depth : ℚ) * 100
  else 0

/-- The maximizing loop of minimax: fold the children with Math.max, raising
alpha, with a beta cutoff after each child. -/
def abMaxLoop (child : MoveRec → EVal → EVal) (beta : EVal) :
    List MoveRec → EVal → EVal → EVal
  | [], maxEval, _ => maxEval
  | move :: rest, maxEval, alpha =>
    let evaluation := child move alpha
    let maxEval1 := max maxEval evaluation
    let alpha1 := max alpha evaluation
    if beta ≤ alpha1 then maxEval1 else abMaxLoop child beta rest maxEval1 alpha1

/-- The minimizing loop of minimax: fold the children with Math.min, lowering
beta, with an alpha cutoff after each child. -/
def abMinLoop (child : MoveRec → EVal → EVal) (alpha : EVal) :
    List MoveRec → EVal → EVal → EVal
  | [], minEval, _ => minEval
  | move :: rest, minEval, beta =>
    let evaluation := child move beta
    let minEval1 := min minEval evaluation
    let beta1 := min beta evaluation
    if beta1 ≤ alpha then minEval1 else abMinLoop child alpha rest minEval1 beta1

/-- MINIMAX (minimax) with alpha-beta pruning: terminal test first (side to
move is aiColor when maximizing, else the opponent), then the depth-0 leaf
evaluation, then the ordered alpha-beta loops. -/
def minimax (s : GameState) (aiColor : Color) :
    Nat → Board → EVal → EVal → Bool → EVal
  | 0, board, _alpha, _beta, isMaximizing =>
    let currentColor := if isMaximizing then aiColor else aiColor.opp
    let moves := getAllPossibleMoves s board currentColor
    if moves.isEmpty then fq (terminalScore s board currentColor isMaximizing 0)
    else fq (evaluatePosition board aiColor)
  | depth + 1, board, alpha, beta, isMaximizing =>
    let currentColor := if isMaximizing then aiColor else aiColor.opp
    let moves := getAllPossibleMoves s board currentColor
    if moves.isEmpty then fq (terminalScore s board currentColor isMaximizing (depth + 1))
    else
      let orderedMoves := orderMoves moves board
      if isMaximizing then
        abMaxLoop
          (fun move a =>
            minimax s aiColor depth
              (makeMoveOnBoard board move.fromSq.1 move.fromSq.2 move.toSq.1 move.toSq.2)
              a beta false)
          beta orderedMoves ⊥ alpha
      else
        abMinLoop
          (fun move b =>
            minimax s aiColor depth
              (makeMoveOnBoard board move.fromSq.1 move.fromSq.2 move.toSq.1 move.toSq.2)
              alpha b true)
          alpha orderedMoves ⊤ beta

/-- The AI's previous executed move: moveHistory entry two back, when at
least two half-moves were played. -/
def lastAiMove (s : GameState) : Option HistMove :=
  if s.moveHistory.length ≥ 2 then s.moveHistory.get? (s.moveHistory.length - 2) else none

/-- Test whether a candidate exactly reverses the AI's previous move
(origin equals its destination and destination equals its origin). -/
def reversesLast (lastMove : Option HistMove) (m : MoveRec) : Bool :=
  match lastMove with
  | some lm =>
    m.fromSq.1 == lm.toRow && m.fromSq.2 == lm.toCol &&
      m.toSq.1 == lm.fromRow && m.toSq.2 == lm.fromCol
  | none => false

/-- Search depth from the difficulty setting. -/
def searchDepth (d : Difficulty) : Nat :=
  match d with
  | .easy => 2
  | .medium => 3
  | .hard => 4

/-- Adjusted value of one top-level move in getBestMove: minimax at depth-1
from the opponent's perspective with the full window, minus 300 exactly when
the move reverses the AI's previous move. -/
def topMoveValue (s : GameState) (depth : Nat) (lastMove : Option HistMove) (m : MoveRec) : EVal :=
  let newBoard := makeMoveOnBoard s.board m.fromSq.1 m.fromSq.2 m.toSq.1 m.toSq.2
  let moveValue := minimax s .black (depth - 1) newBoard ⊥ ⊤ false
  if reversesLast lastMove m then esub moveValue 300 else moveValue

/-- The selection loop of getBestMove: keep the move whose adjusted value
strictly exceeds the best so far. -/
def bestLoop (f : MoveRec → EVal) :
    List MoveRec → Option MoveRec → EVal → Option MoveRec × EVal
  | [], bestMove, bestValue => (bestMove, bestValue)
  | move :: rest, bestMove, bestValue =>
    let moveValue := f move
    if bestValue < moveValue then bestLoop f rest (some move) moveValue
    else bestLoop f rest bestMove bestValue

/-- GET BEST MOVE (getBestMove), returning both the chosen move and its
adjusted value: aiColor is the constant black; all its legal moves, ordered
by MVV-LVA, are evaluated by minimax at depth-1 (maximizing = false) with the
repetition penalty, and the strict-improvement loop selects the winner.
(The JS also builds recentHashes / currentHash / repetitionCount via
hashBoard, but never reads them; that dead bookkeeping is omitted.) -/
def getBestPair (s : GameState) : Option MoveRec × EVal :=
  let aiColor := Color.black
  let moves := getAllPossibleMoves s s.board aiColor
  if moves.isEmpty then (none, ⊥)
  else
    let depth := searchDepth s.aiDifficulty
    let lastMove := lastAiMove s
    let orderedMoves := orderMoves moves s.board
    bestLoop (topMoveValue s depth lastMove) orderedMoves none ⊥

/-- The move getBestMove returns. -/
def getBestMove (s : GameState) : Option MoveRec := (getBestPair s).1

/-- Modelled from the spec: the full (unpruned) maximizing fold of a minimax
node. -/
def fullMaxFold (w : MoveRec → EVal) : List MoveRec → EVal → EVal
  | [], acc => acc
  | move :: rest, acc => fullMaxFold w rest (max acc (w move))

/-- Modelled from the spec: the full (unpruned) minimizing fold of a minimax
node. -/
def fullMinFold (w : MoveRec → EVal) : List MoveRec → EVal → EVal
  | [], acc => acc
  | move :: rest, acc => fullMinFold w rest (min acc (w move))

/-- Modelled from the spec: full unpruned minimax at the same depth with the
same terminal scoring, the same move ordering and the same evaluation, for
comparison with the alpha-beta version. -/
def minimaxFull (s : GameState) (aiColor : Color) :
    Nat → Board → Bool → EVal
  | 0, board, isMaximizing =>
    let currentColor := if isMaximizing then aiColor else aiColor.opp
    let moves := getAllPossibleMoves s board currentColor
    if moves.isEmpty then fq (terminalScore s board currentColor isMaximizing 0)
    else fq (evaluatePosition board aiColor)
  | depth + 1, board, isMaximizing =>
    let currentColor := if isMaximizing then aiColor else aiColor.opp
    let moves := getAllPossibleMoves s board currentColor
    if moves.isEmpty then fq (terminalScore s board currentColor isMaximizing (depth + 1))
    else
      let orderedMoves := orderMoves moves board
      if isMaximizing then
        fullMaxFold
          (fun move =>
            minimaxFull s aiColor depth
              (makeMoveOnBoard board move.fromSq.1 move.fromSq.2 move.toSq.1 move.toSq.2) false)
          orderedMoves ⊥
      else
        fullMinFold
          (fun move =>
            minimaxFull s aiColor depth
              (makeMoveOnBoard board move.fromSq.1 move.fromSq.2 move.toSq.1 move.toSq.2) true)
          orderedMoves ⊤

/-- Modelled from the spec: the adjusted value of a top-level move computed
by the full unpruned search (same depth, same repetition penalty). -/
def topMoveValueFull (s : GameState) (depth : Nat) (lastMove : Option HistMove)
    (m : MoveRec) : EVal :=
  let newBoard := makeMoveOnBoard s.board m.fromSq.1 m.fromSq.2 m.toSq.1 m.toSq.2
  let moveValue := minimaxFull s .black (depth - 1) newBoard false
  if reversesLast lastMove m then esub moveValue 300 else moveValue

/-- Modelled from the spec: getBestMove with the pruned search replaced by
the full unpruned search, everything else unchanged. -/
def getBestPairFull (s : GameState) : Option MoveRec × EVal :=
  let aiColor := Color.black
  let moves := getAllPossibleMoves s s.board aiColor
  if moves.isEmpty then (none, ⊥)
  else
    let depth := searchDepth s.aiDifficulty
    let lastMove := lastAiMove s
    let orderedMoves := orderMoves moves s.board
    bestLoop (topMoveValueFull s depth lastMove) orderedMoves none ⊥

/-! ## Persistence (loadGameState and the DOMContentLoaded startup flow)

localStorage.getItem and JSON.parse are platform built-ins; their outcome is
embedded as an explicit input: the record is absent (getItem returned null),
corrupt (JSON.parse threw, caught by the try block), or parses to a saved
state. -/

/-- The record shape saveGameState persists; gameMode / aiDifficulty may be
missing in old records (the JS code applies || fallbacks on load). -/
structure SavedState where
  board : Board
  currentTurn : Color
  gameStatus : GameStatus
  moveHistory : List HistMove
  enPassantTarget : Option (Int × Int)
  castlingRights : Color → SideFlags
  kingMoved : Color → Bool
  rookMoved : Color → SideFlags
  gameMode : Option GameMode
  aiDifficulty : Option Difficulty

/-- Outcome of reading and parsing the persisted record. -/
inductive StoredRecord where
  | absent
  | corrupt
  | valid (data : SavedState)

/-- loadGameState: false without touching the state when the record is absent
or JSON.parse throws (caught); otherwise restore the persisted fields and
return true. -/
def loadGameState (s : GameState) : StoredRecord → GameState × Bool
  | .absent => (s, false)
  | .corrupt => (s, false)
  | .valid d =>
    ({ s with
        board := d.board
        currentTurn := d.currentTurn
        gameStatus := d.gameStatus
        moveHistory := d.moveHistory
        enPassantTarget := d.enPassantTarget
        castlingRights := d.castlingRights
        kingMoved := d.kingMoved
        rookMoved := d.rookMoved
        gameMode := d.gameMode.getD .pvp
        aiDifficulty := d.aiDifficulty.getD .medium }, true)

/-- User-visible alert kinds shown by showAlert. -/
inductive AlertKind where
  | promotionAlert
  | checkAlert
  | checkmateAlert
  | stalemateAlert
  | aiThinkingAlert
deriving DecidableEq, Repr

/-- The DOMContentLoaded startup flow: load the saved state; on success
restore the matching status alert, otherwise initialize a fresh board with no
alert. -/
def initApp (stored : StoredRecord) : GameState × List AlertKind :=
  let r := loadGameState defaultGameState stored
  if r.2 then
    let alerts :=
      match r.1.gameStatus with
      | .checkmate => [AlertKind.checkmateAlert]
      | .stalemate => [AlertKind.stalemateAlert]
      | .check => [AlertKind.checkAlert]
      | .active => []
    (r.1, alerts)
  else
    ({ r.1 with board := initializeBoard }, [])

/-! ## Board well-formedness -/

/-- An 8x8 board. -/
def boardWf (b : Board) : Prop := b.length = 8 ∧ ∀ r ∈ b, r.length = 8

/-- Board for the C5 witness: black king h8 checkmated by a white rook on a8
with the white king on g6. -/
def c5MateBoard : Board :=
  bset (bset (bset (List.replicate 8 (List.replicate 8 none))
    0 7 (some { type := .king, color := .black }))
    2 6 (some { type := .king, color := .white }))
    0 0 (some { type := .rook, color := .white })

/-- State wrapping the C5 witness board (castling flags cleared so the
phantom castling generation cannot add king moves). -/
def c5MateState : GameState :=
  { defaultGameState with board := c5MateBoard, kingMoved := fun _ => true }

/-! ## Claim C1 (code bug) -/

/-- The reachability trace for C1: a legal game in which white walks the king
to h5, black's queen sits on a5, a white pawn stands on e5, and black answers
with the double step d7-d5. -/
def c1Moves : List (Int × Int × Int × Int) :=
  [ (6, 4, 4, 4),  -- e2-e4
    (1, 2, 2, 2),  -- c7-c6
    (4, 4, 3, 4),  -- e4-e5
    (0, 3, 3, 0),  -- Qd8-a5
    (7, 4, 6, 4),  -- Ke1-e2
    (0, 1, 2, 0),  -- Nb8-a6
    (6, 4, 5, 4),  -- Ke2-e3
    (2, 0, 0, 1),  -- Na6-b8
    (5, 4, 4, 5),  -- Ke3-f4
    (0, 1, 2, 0),  -- Nb8-a6
    (4, 5, 3, 6),  -- Kf4-g5
    (2, 0, 0, 1),  -- Na6-b8
    (3, 6, 3, 7),  -- Kg5-h5
    (0, 1, 2, 0),  -- Nb8-a6
    (6, 0, 5, 0),  -- a2-a3
    (1, 3, 3, 3) ] -- d7-d5 (double step, sets the en-passant target)

/-! ## Claim C3 (code bug) -/

/-- The reachability trace for C3: a white knight captures the untouched
black rook on h8 (its origin corner). -/
def c3Moves : List (Int × Int × Int × Int) :=
  [ (7, 6, 5, 5),  -- Ng1-f3
    (1, 0, 2, 0),  -- a7-a6
    (5, 5, 3, 6),  -- Nf3-g5
    (2, 0, 3, 0),  -- a6-a5
    (3, 6, 1, 5),  -- Ng5xf7
    (3, 0, 4, 0),  -- a5-a4
    (1, 5, 0, 7) ] -- Nf7xh8: captures the rook standing on its origin corner

/-! ## Claim C7 (corrected)

Spec-level decomposition of evaluatePosition: a per-square signed integer sum
plus the endgame king bonuses, the latter expressed through the kings found
last in row-major order (the JS loop overwrites without break). -/

/-- Signed material-plus-positional contribution of one square, as summed by
the evaluatePosition loop. -/
def pieceContrib (board : Board) (color : Color) (endgame : Bool) (rc : Int × Int) : ℤ :=
  match bget board rc.1 rc.2 with
  | none => 0
  | some piece =>
    let pieceValue : ℤ := PIECE_VALUES piece.type
    let tableRow : Int := if piece.color == .white then 7 - rc.1 else rc.1
    let positionBonus : ℤ :=
      if piece.type == .king && endgame then
        if piece.color == color then tableGet KING_ENDGAME_TABLE tableRow rc.2
        else -(tableGet KING_ENDGAME_TABLE tableRow rc.2)
      else tableGet (PIECE_SQUARE_TABLES piece.type) tableRow rc.2
    if piece.color == color then pieceValue + positionBonus else -(pieceValue + positionBonus)

/-- Squares holding a king of the given color. -/
def isKingSquareOf (board : Board) (color : Color) (rc : Int × Int) : Bool :=
  match bget board rc.1 rc.2 with
  | some p => p.type == .king && p.color == color
  | none => false

/-- Squares holding a king that is not of the given color (the literal
condition of the evaluatePosition loop). -/
def isEnemyKingSquareOf (board : Board) (color : Color) (rc : Int × Int) : Bool :=
  match bget board rc.1 rc.2 with
  | some p => p.type == .king && p.color != color
  | none => false

/-- Modelled from the spec: the integer part of the evaluation, the signed
material and piece-square sum over the 64 squares. -/
def pieceScore (board : Board) (color : Color) : ℤ :=
  (squares.map (pieceContrib board color (isEndgame board))).sum

/-- The king of a color found last in row-major order (the one the
evaluatePosition loop ends up tracking). -/
def lastKingSq (board : Board) (color : Color) : Option (Int × Int) :=
  (squares.filter (isKingSquareOf board color)).getLast?

/-- Modelled from the spec: Chebyshev distance of a square from the board
centre, which lies at coordinates (3.5, 3.5). -/
def chebyshevFromCentre (rc : Int × Int) : ℚ :=
  max |(3.5 : ℚ) - (rc.1 : ℚ)| |(3.5 : ℚ) - (rc.2 : ℚ)|

/-- Modelled from the spec: the endgame-only bonus terms, 15 times the enemy
king's Chebyshev distance from the centre plus 5 times (14 minus the king
Manhattan distance), present only in endgame mode with both kings found. -/
def endgameBonus (board : Board) (color : Color) : ℚ :=
  match lastKingSq board color, lastKingSq board color.opp with
  | some aiK, some eK =>
    if isEndgame board then
      chebyshevFromCentre eK * 15 + ((14 - kingDistance aiK.1 aiK.2 eK.1 eK.2 : ℤ) : ℚ) * 5
    else 0
  | _, _ => 0

/-- Board with only the two kings, for the C7 counterexample and witness:
an endgame board on which the evaluation is -95/2. -/
def c7KingsBoard : Board :=
  bset (bset (List.replicate 8 (List.replicate 8 none))
    7 0 (some { type := .king, color := .white }))
    0 7 (some { type := .king, color := .black })

/-! ## Claim C6 (confirmed): getBestMove selection rule -/

/-- Modelled from the spec: pick the first element of the list attaining the
maximal adjusted value (later elements replace the current best only when
strictly greater). -/
def firstArgmax (f : MoveRec → EVal) : List MoveRec → Option MoveRec
  | [] => none
  | x :: xs =>
    match firstArgmax f xs with
    | none => some x
    | some y => if f x < f y then some y else some x

/-- The running best of the selection loop, seeded with a first candidate. -/
def bestFrom (f : MoveRec → EVal) : MoveRec → List MoveRec → MoveRec
  | m, [] => m
  | m, x :: xs => bestFrom f (if f m < f x then x else m) xs

/-! ## Claim C10 (confirmed): the AI plays black -/

/-- Board for the C10 witness. -/
def c10Board : Board :=
  bset (bset (bset (List.replicate 8 (List.replicate 8 none))
    7 0 (some { type := .king, color := .white }))
    0 7 (some { type := .king, color := .black }))
    5 5 (some { type := .pawn, color := .black })

/-- State for the C10 witness (easy difficulty, castling flags cleared). -/
def c10State : GameState :=
  { defaultGameState with board := c10Board, aiDifficulty := .easy, kingMoved := fun _ => true }

/-- The move getBestMove selects on c10State. -/
def c10Best : MoveRec :=
  { fromSq := (0, 7), toSq := (1, 6), moveData := { row := 1, col := 6 } }

section MainProofs

attribute [local semireducible] Rat.add Rat.mul Rat.sub Rat.inv Rat.ofScientific

theorem bget_bset (b : Board) (hb : boardWf b) (row col : Int)
    (hrow : 0 ≤ row ∧ row < 8) (hcol : 0 ≤ col ∧ col < 8) (v : Option Piece) (r c : Int) :
    bget (bset b row col v) r c = if r = row ∧ c = col then v else bget b r c := by
  obtain ⟨hlen, hrows⟩ := hb
  have hrowlt : row.toNat < b.length := by omega
  have hr0 : b.get? row.toNat = some b[row.toNat] := by
    rw [List.get?_eq_getElem?]; exact List.getElem?_eq_getElem hrowlt
  have hr0len : b[row.toNat].length = 8 := hrows _ (List.getElem_mem hrowlt)
  unfold bset
  rw [if_pos ⟨hrow.1, hcol.1⟩, hr0]
  by_cases hrc : 0 ≤ r ∧ 0 ≤ c
  · unfold bget
    rw [if_pos hrc, if_pos hrc]
    rw [List.get?_eq_getElem?, List.get?_eq_getElem?, List.getElem?_set]
    by_cases hre : row.toNat = r.toNat
    · have hrr : r = row := by omega
      subst hrr
      rw [if_pos hre, if_pos (by omega)]
      simp only [List.get?_eq_getElem?, List.getElem?_set]
      by_cases hce : col.toNat = c.toNat
      · have hcc : c = col := by omega
        subst hcc
        rw [if_pos hce, if_pos (by omega)]
        simp
      · have hcc : ¬ (c = col) := by omega
        rw [if_neg hce, if_neg (by tauto)]
        rw [List.getElem?_eq_getElem hrowlt]
    · have hrr : ¬ (r = row) := by omega
      rw [if_neg hre, if_neg (by tauto)]
  · have hno : ¬ (r = row ∧ c = col) := by omega
    unfold bget
    rw [if_neg hrc, if_neg hno, if_neg hrc]

theorem boardWf_bset (b : Board) (hb : boardWf b) (row col : Int) (v : Option Piece) :
    boardWf (bset b row col v) := by
  obtain ⟨hlen, hrows⟩ := hb
  unfold bset
  by_cases h : 0 ≤ row ∧ 0 ≤ col
  · rw [if_pos h]
    cases hg : b.get? row.toNat with
    | none => exact ⟨hlen, hrows⟩
    | some r0 =>
      refine ⟨by rw [List.length_set]; exact hlen, ?_⟩
      intro rr hrr
      rcases List.mem_or_eq_of_mem_set hrr with h1 | h1
      · exact hrows _ h1
      · subst h1
        rw [List.length_set]
        exact hrows _ (List.get?_mem hg)
  · rw [if_neg h]; exact ⟨hlen, hrows⟩

/-! ## Claim C9 (corrected) -/

/-- C9 counterexample: the claim quantifies over every from/to square pair,
but when origin and destination coincide makeMoveOnBoard leaves the square
empty (the origin-clearing write runs last), so the destination does not hold
the piece that was at the origin: from the initial board, the move
(0,0) to (0,0) empties a8 instead of keeping its rook. -/
theorem C9_counterexample :
    ¬ (bget (makeMoveOnBoard initializeBoard 0 0 0 0) 0 0 = bget initializeBoard 0 0) := by
  decide

/-- C9 amended: on an 8x8 board with in-range origin and destination, the
board makeMoveOnBoard returns reads: empty at the origin (also when origin and
destination coincide), the old origin piece at the destination otherwise, and
unchanged everywhere else — in particular no castling rook relocation, no
en-passant pawn removal and no promotion ever happens, and (the embedding
being functional, as the JS copies the rows first) the input board is not
modified. -/
theorem C9_frame (b : Board) (hb : boardWf b) (fromRow fromCol toRow toCol : Int)
    (hfr : 0 ≤ fromRow ∧ fromRow < 8) (hfc : 0 ≤ fromCol ∧ fromCol < 8)
    (htr : 0 ≤ toRow ∧ toRow < 8) (htc : 0 ≤ toCol ∧ toCol < 8) (r c : Int) :
    bget (makeMoveOnBoard b fromRow fromCol toRow toCol) r c =
      if r = fromRow ∧ c = fromCol then none
      else if r = toRow ∧ c = toCol then bget b fromRow fromCol
      else bget b r c := by
  unfold makeMoveOnBoard
  rw [bget_bset _ (boardWf_bset b hb toRow toCol _) fromRow fromCol hfr hfc none r c,
    bget_bset b hb toRow toCol htr htc _ r c]

/-- C9 witness: the frame theorem applied to the initial board and the move
(6,4) to (4,4), at the destination square. -/
theorem C9_witness :
    boardWf initializeBoard ∧
      bget (makeMoveOnBoard initializeBoard 6 4 4 4) 4 4 = bget initializeBoard 6 4 := by
  have hwf : boardWf initializeBoard := by constructor <;> decide
  refine ⟨hwf, ?_⟩
  rw [C9_frame initializeBoard hwf 6 4 4 4 (by omega) (by omega) (by omega) (by omega) 4 4]
  decide

/-! ## Claim C2 (corrected) -/

/-- C2 counterexample: after white plays (6,4) to (4,4) from the initial
position, enPassantTarget is not null — the move is a two-square advance, so
makeMove records the intermediate square. -/
theorem C2_counterexample :
    ¬ ((makeMove freshGameState 6 4 4 4).map (fun p => p.1.enPassantTarget) = some none) := by
  decide

/-- C2 amended: executing white's (6,4) to (4,4) from the initial position
leaves (6,4) empty, puts the white pawn on (4,4), sets enPassantTarget to the
intermediate square (5,4) (the move is a double step), gives black the turn,
and leaves the game active. -/
theorem C2_amended_effects :
    (makeMove freshGameState 6 4 4 4).map (fun p => bget p.1.board 6 4) = some none ∧
    (makeMove freshGameState 6 4 4 4).map (fun p => bget p.1.board 4 4) =
      some (some { type := .pawn, color := .white }) ∧
    (makeMove freshGameState 6 4 4 4).map (fun p => p.1.enPassantTarget) = some (some (5, 4)) ∧
    (makeMove freshGameState 6 4 4 4).map (fun p => p.1.currentTurn) = some .black ∧
    (makeMove freshGameState 6 4 4 4).map (fun p => p.1.gameStatus) = some .active := by
  refine ⟨by decide, by decide, by decide, by decide, by decide⟩

/-! ## Claim C5 (confirmed) -/

/-- C5: when the side to move at a minimax node (aiColor if maximizing, else
the opponent) has no legal moves, minimax returns the mate score
-(100000 + depth·100) for the maximizing side in check, +(100000 + depth·100)
for the minimizing side in check, and 0 for stalemate — at every depth,
including depth 0, where the terminal test precedes the evaluatePosition
leaf. -/
theorem C5_terminal_scores (s : GameState) (board : Board) (depth : Nat)
    (alpha beta : EVal) (isMaximizing : Bool) (aiColor : Color)
    (h : getAllPossibleMoves s board (if isMaximizing then aiColor else aiColor.opp) = []) :
    minimax s aiColor depth board alpha beta isMaximizing =
      fq (if isKingInCheckOnBoard s board (if isMaximizing then aiColor else aiColor.opp) then
            (if isMaximizing then -(100000 + (depth : ℚ) * 100) else 100000 + (depth : ℚ) * 100)
          else 0) := by
  have hq : -(100000 + (depth : ℚ) * 100) = -100000 - (depth : ℚ) * 100 := by ring
  cases depth with
  | zero =>
    simp only [minimax, h, List.isEmpty_nil, if_true, terminalScore]
    rw [hq]
  | succ d =>
    simp only [minimax, h, List.isEmpty_nil, if_true, terminalScore]
    rw [hq]

/-- C5 witness: on the mate board, black (the maximizing side at this node)
has no moves, and minimax at depth 0 returns the mate score -100000 rather
than the leaf evaluation. -/
theorem C5_witness :
    getAllPossibleMoves c5MateState c5MateBoard Color.black = [] ∧
      minimax c5MateState Color.black 0 c5MateBoard ⊥ ⊤ true = fq (-100000) := by
  have h : getAllPossibleMoves c5MateState c5MateBoard
      (if (true : Bool) then Color.black else Color.black.opp) = [] := by decide
  refine ⟨h, ?_⟩
  rw [C5_terminal_scores c5MateState c5MateBoard 0 ⊥ ⊤ true Color.black h]
  have hc : isKingInCheckOnBoard c5MateState c5MateBoard Color.black = true := by decide
  norm_num [hc]

/-! ## Claim C8 (confirmed) -/

/-- C8: an absent or corrupt saved record makes loadGameState report false
without touching the state, and the startup flow then starts a fresh game:
the initial board, the default gameState values (mode pvp, difficulty
medium), and no alert — no persistence failure reaches the user. -/
theorem C8_load_fallback (stored : StoredRecord)
    (h : stored = .absent ∨ stored = .corrupt) :
    (loadGameState defaultGameState stored).2 = false ∧
      (loadGameState defaultGameState stored).1 = defaultGameState ∧
      initApp stored = (freshGameState, []) ∧
      freshGameState.gameMode = .pvp ∧ freshGameState.aiDifficulty = .medium := by
  rcases h with h | h <;> subst h <;>
    exact ⟨rfl, rfl, rfl, rfl, rfl⟩

/-- C8 witness: the fallback theorem at an absent record. -/
theorem C8_witness :
    (loadGameState defaultGameState .absent).2 = false ∧
      (loadGameState defaultGameState .absent).1 = defaultGameState ∧
      initApp .absent = (freshGameState, []) ∧
      freshGameState.gameMode = .pvp ∧ freshGameState.aiDifficulty = .medium :=
  C8_load_fallback .absent (Or.inl rfl)

/-- C1 fails on the code: in the reachable position after c1Moves, the
en-passant capture (3,4) to (2,3) is returned by getLegalMoves (the
wouldBeInCheck simulation relocates the capturing pawn but does not remove
the captured pawn, which still blocks the a5 queen's line), yet actually
executing it with makeMove removes the captured pawn from d5 and leaves
white — the moving color — in check from the queen along the fifth rank. -/
theorem C1_failing_trace :
    (playMoves freshGameState c1Moves).map (fun s =>
        ((getLegalMoves s 3 4).any (fun m => m.row == 2 && m.col == 3 && m.enPassant),
          (makeMove s 3 4 2 3).map (fun p => isKingInCheck p.1 Color.white))) =
      some (true, some true) := by
  decide

/-- C3 fails on the code: after the seventh half-move of c3Moves captures
black's king-side rook on its origin square (0,7) (the recorded history entry
shows the captured rook), the castling-rights state for black's king side is
not cleared: castlingRights stays true and rookMoved / kingMoved stay
false. -/
theorem C3_failing_trace :
    (playMoves freshGameState c3Moves).map (fun s =>
        (s.moveHistory.get? 6, (s.castlingRights Color.black).kingSide,
          (s.rookMoved Color.black).kingSide, s.kingMoved Color.black)) =
      some (some { fromRow := 1, fromCol := 5, toRow := 0, toCol := 7,
                    piece := { type := .knight, color := .white },
                    captured := some { type := .rook, color := .black } },
        true, false, false) := by
  decide

theorem option_or_none {α : Type} (x : Option α) : x.or none = x := by cases x <;> rfl

theorem option_or_some_absorb {α : Type} (x : Option α) (b : α) (z : Option α) :
    (x.or (some b)).or z = x.or (some b) := by cases x <;> rfl

theorem getLast?_cons_or {α : Type} (a : α) (l : List α) :
    (a :: l).getLast? = l.getLast?.or (some a) := by
  induction l generalizing a with
  | nil => rfl
  | cons b m ih =>
    rw [List.getLast?_cons_cons, ih b]
    exact (option_or_some_absorb _ _ _).symm

/-- The evaluatePosition loop over any square list computes the contribution
sum and tracks the last king square of each side. -/
theorem evalFold_eq (board : Board) (color : Color) (endgame : Bool) :
    ∀ (l : List (Int × Int)) (acc : ℚ × Option (Int × Int) × Option (Int × Int)),
      l.foldl (evalStep board color endgame) acc =
        (acc.1 + (((l.map (pieceContrib board color endgame)).sum : ℤ) : ℚ),
          ((l.filter (isKingSquareOf board color)).getLast?).or acc.2.1,
          ((l.filter (isEnemyKingSquareOf board color)).getLast?).or acc.2.2) := by
  intro l
  induction l with
  | nil => intro acc; simp
  | cons x l ih =>
    intro acc
    rw [List.foldl_cons, ih]
    have hs : (evalStep board color endgame acc x).1 =
        acc.1 + ((pieceContrib board color endgame x : ℤ) : ℚ) := by
      unfold evalStep pieceContrib
      cases hb : bget board x.1 x.2 with
      | none => simp
      | some p =>
        by_cases hc : (p.color == color) = true
        · simp [hc]
        · simp [hc]
          ring
    have hk1 : (evalStep board color endgame acc x).2.1 =
        if isKingSquareOf board color x then some x else acc.2.1 := by
      unfold evalStep isKingSquareOf
      cases hb : bget board x.1 x.2 with
      | none => simp
      | some p => simp
    have hk2 : (evalStep board color endgame acc x).2.2 =
        if isEnemyKingSquareOf board color x then some x else acc.2.2 := by
      unfold evalStep isEnemyKingSquareOf
      cases hb : bget board x.1 x.2 with
      | none => simp
      | some p => simp
    rw [hs, hk1, hk2]
    refine Prod.ext ?_ (Prod.ext ?_ ?_)
    · simp only [List.map_cons, List.sum_cons]
      push_cast
      ring
    · simp only [List.filter_cons]
      by_cases h : isKingSquareOf board color x = true
      · rw [if_pos h, if_pos h, getLast?_cons_or, option_or_some_absorb]
      · rw [if_neg h, if_neg (by simpa using h)]
    · simp only [List.filter_cons]
      by_cases h : isEnemyKingSquareOf board color x = true
      · rw [if_pos h, if_pos h, getLast?_cons_or, option_or_some_absorb]
      · rw [if_neg h, if_neg (by simpa using h)]

theorem enemy_filter_eq (board : Board) (color : Color) :
    isEnemyKingSquareOf board color = isKingSquareOf board color.opp := by
  funext rc
  unfold isEnemyKingSquareOf isKingSquareOf
  cases bget board rc.1 rc.2 with
  | none => rfl
  | some p =>
    obtain ⟨pt, pc⟩ := p
    cases pc <;> cases color <;> rfl

/-- evaluatePosition decomposes into the integer piece sum plus the endgame
bonus. -/
theorem evaluatePosition_eq (board : Board) (color : Color) :
    evaluatePosition board color = (pieceScore board color : ℚ) + endgameBonus board color := by
  unfold evaluatePosition endgameBonus lastKingSq pieceScore
  dsimp only
  rw [evalFold_eq, enemy_filter_eq]
  simp only [option_or_none]
  cases h1 : (squares.filter (isKingSquareOf board color)).getLast? with
  | none => simp
  | some k1 =>
    cases h2 : (squares.filter (isKingSquareOf board color.opp)).getLast? with
    | none => simp
    | some k2 =>
      by_cases hend : isEndgame board = true
      · simp only [hend, if_true]
        unfold chebyshevFromCentre
        push_cast
        ring
      · simp only [Bool.not_eq_true] at hend
        simp only [hend, Bool.false_eq_true, if_false]
        simp

/-- The Chebyshev distance from the centre (3.5, 3.5) of an integer square is
an odd multiple of one half. -/
theorem cheb_half_odd (rc : Int × Int) :
    ∃ m : ℤ, Odd m ∧ chebyshevFromCentre rc = (m : ℚ) / 2 := by
  refine ⟨max |7 - 2 * rc.1| |7 - 2 * rc.2|, ?_, ?_⟩
  · have o1 : Odd |7 - 2 * rc.1| := by
      rcases abs_choice (7 - 2 * rc.1) with h | h <;> rw [h]
      · exact ⟨3 - rc.1, by ring⟩
      · exact ⟨rc.1 - 4, by ring⟩
    have o2 : Odd |7 - 2 * rc.2| := by
      rcases abs_choice (7 - 2 * rc.2) with h | h <;> rw [h]
      · exact ⟨3 - rc.2, by ring⟩
      · exact ⟨rc.2 - 4, by ring⟩
    rcases max_cases |7 - 2 * rc.1| |7 - 2 * rc.2| with ⟨h, _⟩ | ⟨h, _⟩ <;> rw [h]
    · exact o1
    · exact o2
  · unfold chebyshevFromCentre
    have e1 : |(3.5 : ℚ) - (rc.1 : ℚ)| = ((|7 - 2 * rc.1| : ℤ) : ℚ) / 2 := by
      rw [show (3.5 : ℚ) - (rc.1 : ℚ) = ((7 - 2 * rc.1 : ℤ) : ℚ) / 2 by push_cast; ring]
      rw [abs_div, Int.cast_abs]
      norm_num
    have e2 : |(3.5 : ℚ) - (rc.2 : ℚ)| = ((|7 - 2 * rc.2| : ℤ) : ℚ) / 2 := by
      rw [show (3.5 : ℚ) - (rc.2 : ℚ) = ((7 - 2 * rc.2 : ℤ) : ℚ) / 2 by push_cast; ring]
      rw [abs_div, Int.cast_abs]
      norm_num
    rw [e1, e2, max_div_div_right (by norm_num : (0:ℚ) ≤ 2)]
    push_cast
    ring

/-- In endgame mode with both kings on the board the evaluation is never an
integer: the 15-times-Chebyshev term contributes an odd multiple of one
half. -/
theorem eval_not_int (board : Board) (color : Color) (k1 k2 : Int × Int)
    (h1 : lastKingSq board color = some k1) (h2 : lastKingSq board color.opp = some k2)
    (hend : isEndgame board = true) :
    ¬ ∃ n : ℤ, evaluatePosition board color = (n : ℚ) := by
  rw [evaluatePosition_eq]
  unfold endgameBonus
  rw [h1, h2]
  simp only [hend, if_true]
  obtain ⟨m, hm, hcheb⟩ := cheb_half_odd k2
  rw [hcheb]
  rintro ⟨n, h⟩
  have h3 : 2 * pieceScore board color + 15 * m +
      10 * (14 - kingDistance k1.1 k1.2 k2.1 k2.2) = 2 * n := by
    have h2q : ((2 * pieceScore board color + 15 * m +
        10 * (14 - kingDistance k1.1 k1.2 k2.1 k2.2) : ℤ) : ℚ) = ((2 * n : ℤ) : ℚ) := by
      push_cast
      field_simp at h
      linarith
    exact_mod_cast h2q
  obtain ⟨k, hk⟩ := hm
  omega

/-- C7 counterexample: a board containing both kings on which
evaluatePosition is -95/2, not an integer (the claim says it returns an
integer). -/
theorem C7_counterexample : ¬ ∃ n : ℤ, evaluatePosition c7KingsBoard Color.white = (n : ℚ) := by
  rintro ⟨n, h⟩
  have hv : evaluatePosition c7KingsBoard Color.white = -95 / 2 := by decide
  rw [hv] at h
  have hd := congrArg Rat.den h
  rw [Rat.den_intCast] at hd
  norm_num at hd

/-- C7 amended: evaluatePosition returns a rational, the sum of an integer
per-square score and the endgame bonus; the endgame-only bonuses are 15 times
the opponent king's Chebyshev distance from the board centre (which lies at
(3.5, 3.5), so the distance is a half-odd-integer) and 5 times (14 minus the
Manhattan distance between the kings), both omitted outside endgame mode; in
endgame mode with both kings on the board the result is never an integer. -/
theorem C7_evaluation_structure (board : Board) (color : Color) :
    evaluatePosition board color = (pieceScore board color : ℚ) + endgameBonus board color ∧
      (∀ k1 k2 : Int × Int, lastKingSq board color = some k1 →
        lastKingSq board color.opp = some k2 → isEndgame board = true →
        ¬ ∃ n : ℤ, evaluatePosition board color = (n : ℚ)) :=
  ⟨evaluatePosition_eq board color,
    fun k1 k2 h1 h2 hend => eval_not_int board color k1 k2 h1 h2 hend⟩

/-- C7 witness: the structure theorem applied to the two-kings board, with
its hypotheses discharged by evaluation. -/
theorem C7_witness :
    lastKingSq c7KingsBoard Color.white = some (7, 0) ∧
      lastKingSq c7KingsBoard Color.white.opp = some (0, 7) ∧
      isEndgame c7KingsBoard = true ∧
      ¬ ∃ n : ℤ, evaluatePosition c7KingsBoard Color.white = (n : ℚ) :=
  ⟨by decide, by decide, by decide,
    (C7_evaluation_structure c7KingsBoard Color.white).2 (7, 0) (0, 7)
      (by decide) (by decide) (by decide)⟩

/-! ## Claim C4 (confirmed): alpha-beta pruning equivalence -/

theorem bot_lt_fq (q : ℚ) : (⊥ : EVal) < fq q := WithBot.bot_lt_coe _

theorem fq_lt_top (q : ℚ) : fq q < (⊤ : EVal) :=
  WithBot.coe_lt_coe.mpr (WithTop.coe_lt_top q)

theorem le_abMaxLoop (child : MoveRec → EVal → EVal) (beta : EVal) :
    ∀ (l : List MoveRec) (M alpha : EVal), M ≤ abMaxLoop child beta l M alpha := by
  intro l
  induction l with
  | nil => intro M alpha; exact le_refl M
  | cons x rest ih =>
    intro M alpha
    simp only [abMaxLoop]
    by_cases hcut : beta ≤ max alpha (child x alpha)
    · rw [if_pos hcut]; exact le_max_left M _
    · rw [if_neg hcut]
      exact le_trans (le_max_left M _) (ih _ _)

theorem abMinLoop_le (child : MoveRec → EVal → EVal) (alpha : EVal) :
    ∀ (l : List MoveRec) (M beta : EVal), abMinLoop child alpha l M beta ≤ M := by
  intro l
  induction l with
  | nil => intro M beta; exact le_refl M
  | cons x rest ih =>
    intro M beta
    simp only [abMinLoop]
    by_cases hcut : min beta (child x beta) ≤ alpha
    · rw [if_pos hcut]; exact min_le_left M _
    · rw [if_neg hcut]
      exact le_trans (ih _ _) (min_le_left M _)

theorem abMaxLoop_lt_top (child : MoveRec → EVal → EVal) (beta : EVal)
    (hc : ∀ x a, child x a < ⊤) :
    ∀ (l : List MoveRec) (M alpha : EVal), M < ⊤ → abMaxLoop child beta l M alpha < ⊤ := by
  intro l
  induction l with
  | nil => intro M alpha h; exact h
  | cons x rest ih =>
    intro M alpha h
    simp only [abMaxLoop]
    by_cases hcut : beta ≤ max alpha (child x alpha)
    · rw [if_pos hcut]; exact max_lt h (hc x alpha)
    · rw [if_neg hcut]; exact ih _ _ (max_lt h (hc x alpha))

theorem bot_lt_abMinLoop (child : MoveRec → EVal → EVal) (alpha : EVal)
    (hc : ∀ x a, (⊥ : EVal) < child x a) :
    ∀ (l : List MoveRec) (M beta : EVal), ⊥ < M → ⊥ < abMinLoop child alpha l M beta := by
  intro l
  induction l with
  | nil => intro M beta h; exact h
  | cons x rest ih =>
    intro M beta h
    simp only [abMinLoop]
    by_cases hcut : min beta (child x beta) ≤ alpha
    · rw [if_pos hcut]; exact lt_min h (hc x beta)
    · rw [if_neg hcut]; exact ih _ _ (lt_min h (hc x beta))

theorem insertByScore_ne_nil (board : Board) (m : MoveRec) (l : List MoveRec) :
    insertByScore board m l ≠ [] := by
  cases l with
  | nil => simp [insertByScore]
  | cons x xs =>
    unfold insertByScore
    by_cases h : mvvScore board x ≤ mvvScore board m
    · rw [if_pos h]; simp
    · rw [if_neg h]; simp

theorem orderMoves_ne_nil (moves : List MoveRec) (board : Board) (h : moves ≠ []) :
    orderMoves moves board ≠ [] := by
  cases moves with
  | nil => exact absurd rfl h
  | cons x xs => exact insertByScore_ne_nil board x _

/-- Every pruned minimax value is finite: strictly between the infinities. -/
theorem minimax_finite (s : GameState) (ai : Color) :
    ∀ (depth : Nat) (b : Board) (alpha beta : EVal) (isMax : Bool),
      ⊥ < minimax s ai depth b alpha beta isMax ∧ minimax s ai depth b alpha beta isMax < ⊤ := by
  intro depth
  induction depth with
  | zero =>
    intro b alpha beta isMax
    simp only [minimax]
    by_cases h : (getAllPossibleMoves s b (if isMax then ai else ai.opp)).isEmpty
    · rw [if_pos h]; exact ⟨bot_lt_fq _, fq_lt_top _⟩
    · rw [if_neg h]; exact ⟨bot_lt_fq _, fq_lt_top _⟩
  | succ d ih =>
    intro b alpha beta isMax
    simp only [minimax]
    by_cases h : (getAllPossibleMoves s b (if isMax then ai else ai.opp)).isEmpty
    · rw [if_pos h]; exact ⟨bot_lt_fq _, fq_lt_top _⟩
    · rw [if_neg h]
      have hnil : orderMoves (getAllPossibleMoves s b (if isMax then ai else ai.opp)) b ≠ [] :=
        orderMoves_ne_nil _ _ (by simpa using h)
      have htt : ((true = true) : Prop) = True := by simp
      have hft : ((false = true) : Prop) = False := by simp
      cases isMax with
      | true =>
        simp only [htt, if_true] at hnil ⊢
        cases hor : orderMoves (getAllPossibleMoves s b ai) b with
        | nil => exact absurd hor hnil
        | cons z rest =>
          constructor
          · simp only [abMaxLoop]
            by_cases hcut : beta ≤ max alpha (minimax s ai d
                (makeMoveOnBoard b z.fromSq.1 z.fromSq.2 z.toSq.1 z.toSq.2) alpha beta false)
            · rw [if_pos hcut]
              exact lt_of_lt_of_le (ih _ _ _ _).1 (le_max_right _ _)
            · rw [if_neg hcut]
              exact lt_of_lt_of_le
                (lt_of_lt_of_le (ih _ _ _ _).1 (le_max_right ⊥ _)) (le_abMaxLoop _ _ _ _ _)
          · exact abMaxLoop_lt_top _ _ (fun x a => (ih _ _ _ _).2) _ _ _
              (lt_of_le_of_lt bot_le (lt_of_lt_of_le (ih b ⊥ ⊥ false).1 le_top))
      | false =>
        simp only [hft, if_false] at hnil ⊢
        cases hor : orderMoves (getAllPossibleMoves s b ai.opp) b with
        | nil => exact absurd hor hnil
        | cons z rest =>
          constructor
          · exact bot_lt_abMinLoop _ _ (fun x a => (ih _ _ _ _).1) _ _ _
              (lt_of_lt_of_le (bot_lt_fq 0) le_top)
          · simp only [abMinLoop]
            by_cases hcut : min beta (minimax s ai d
                (makeMoveOnBoard b z.fromSq.1 z.fromSq.2 z.toSq.1 z.toSq.2) alpha beta true) ≤ alpha
            · rw [if_pos hcut]
              exact lt_of_le_of_lt (min_le_right _ _) (ih _ _ _ _).2
            · rw [if_neg hcut]
              exact lt_of_le_of_lt (abMinLoop_le _ _ _ _ _)
                (lt_of_le_of_lt (min_le_right _ _) (ih _ _ _ _).2)

theorem le_fullMaxFold (w : MoveRec → EVal) :
    ∀ (l : List MoveRec) (M : EVal), M ≤ fullMaxFold w l M := by
  intro l
  induction l with
  | nil => intro M; exact le_refl M
  | cons x rest ih =>
    intro M
    exact le_trans (le_max_left M (w x)) (ih _)

theorem fullMinFold_le (w : MoveRec → EVal) :
    ∀ (l : List MoveRec) (M : EVal), fullMinFold w l M ≤ M := by
  intro l
  induction l with
  | nil => intro M; exact le_refl M
  | cons x rest ih =>
    intro M
    exact le_trans (ih _) (min_le_left M (w x))

/-- Fail-soft correctness of the maximizing alpha-beta loop, generalized over
the processed prefix: the loop result bounds the true fold value from the
correct side of the window. -/
theorem abMaxLoop_km (child : MoveRec → EVal → EVal) (w : MoveRec → EVal) (beta alpha0 : EVal)
    (hchild : ∀ x a, a < beta →
      (child x a < beta → w x ≤ child x a) ∧ (a < child x a → child x a ≤ w x)) :
    ∀ (l : List MoveRec) (M alpha mP : EVal),
      alpha = max alpha0 M → alpha < beta →
      (M < beta → mP ≤ M) → (alpha0 < M → M ≤ mP) →
      (abMaxLoop child beta l M alpha < beta →
          fullMaxFold w l mP ≤ abMaxLoop child beta l M alpha) ∧
        (alpha0 < abMaxLoop child beta l M alpha →
          abMaxLoop child beta l M alpha ≤ fullMaxFold w l mP) := by
  intro l
  induction l with
  | nil =>
    intro M alpha mP halpha hab hA hB
    exact ⟨fun h => hA h, fun h => hB h⟩
  | cons x rest ih =>
    intro M alpha mP halpha hab hA hB
    subst halpha
    obtain ⟨hc1, hc2⟩ := hchild x (max alpha0 M) hab
    simp only [abMaxLoop, fullMaxFold]
    by_cases hcut : beta ≤ max (max alpha0 M) (child x (max alpha0 M))
    · rw [if_pos hcut]
      have halpha0b : alpha0 < beta := lt_of_le_of_lt (le_max_left alpha0 M) hab
      constructor
      · intro hglt
        exfalso
        have hlt : max (max alpha0 M) (child x (max alpha0 M)) < beta := by
          rw [max_assoc]
          exact max_lt halpha0b hglt
        exact absurd hcut (not_le_of_lt hlt)
      · intro hgt
        rcases max_cases M (child x (max alpha0 M)) with ⟨hM, hMe⟩ | ⟨hM, hMe⟩
        · rw [hM] at hgt ⊢
          exact le_trans (le_trans (hB hgt) (le_max_left mP (w x))) (le_fullMaxFold w rest _)
        · rw [hM] at hgt ⊢
          have hae : max alpha0 M < child x (max alpha0 M) := max_lt hgt hMe
          exact le_trans (le_trans (hc2 hae) (le_max_right mP (w x))) (le_fullMaxFold w rest _)
    · rw [if_neg hcut]
      push_neg at hcut
      apply ih (max M (child x (max alpha0 M))) (max (max alpha0 M) (child x (max alpha0 M)))
        (max mP (w x)) ?_ hcut ?_ ?_
      · rw [max_assoc]
      · intro hM'b
        apply max_le
        · exact le_trans (hA (lt_of_le_of_lt (le_max_left _ _) hM'b)) (le_max_left M _)
        · exact le_trans (hc1 (lt_of_le_of_lt (le_max_right _ _) hM'b)) (le_max_right M _)
      · intro h0
        rcases max_cases M (child x (max alpha0 M)) with ⟨hM, hMe⟩ | ⟨hM, hMe⟩
        · rw [hM] at h0 ⊢
          exact le_trans (hB h0) (le_max_left mP _)
        · rw [hM] at h0 ⊢
          have hae : max alpha0 M < child x (max alpha0 M) := max_lt h0 hMe
          exact le_trans (hc2 hae) (le_max_right mP _)

/-- Fail-soft correctness of the minimizing alpha-beta loop. -/
theorem abMinLoop_km (child : MoveRec → EVal → EVal) (w : MoveRec → EVal) (alpha beta0 : EVal)
    (hchild : ∀ x bt, alpha < bt →
      (child x bt < bt → w x ≤ child x bt) ∧ (alpha < child x bt → child x bt ≤ w x)) :
    ∀ (l : List MoveRec) (M beta mP : EVal),
      beta = min beta0 M → alpha < beta →
      (M < beta0 → mP ≤ M) → (alpha < M → M ≤ mP) →
      (abMinLoop child alpha l M beta < beta0 →
          fullMinFold w l mP ≤ abMinLoop child alpha l M beta) ∧
        (alpha < abMinLoop child alpha l M beta →
          abMinLoop child alpha l M beta ≤ fullMinFold w l mP) := by
  intro l
  induction l with
  | nil =>
    intro M beta mP hbeta hab hA hB
    exact ⟨fun h => hA h, fun h => hB h⟩
  | cons x rest ih =>
    intro M beta mP hbeta hab hA hB
    subst hbeta
    obtain ⟨hc1, hc2⟩ := hchild x (min beta0 M) hab
    simp only [abMinLoop, fullMinFold]
    by_cases hcut : min (min beta0 M) (child x (min beta0 M)) ≤ alpha
    · rw [if_pos hcut]
      have hab0 : alpha < beta0 := lt_of_lt_of_le hab (min_le_left beta0 M)
      have hgle : min M (child x (min beta0 M)) ≤ alpha := by
        rw [min_assoc] at hcut
        rcases min_cases beta0 (min M (child x (min beta0 M))) with ⟨hm, hle⟩ | ⟨hm, hle⟩
        · rw [hm] at hcut
          exact absurd hcut (not_le_of_lt hab0)
        · rw [hm] at hcut
          exact hcut
      constructor
      · intro hglt
        rcases min_cases M (child x (min beta0 M)) with ⟨hM, hMe⟩ | ⟨hM, hMe⟩
        · rw [hM] at hgle hglt ⊢
          exact le_trans (le_trans (fullMinFold_le w rest _) (min_le_left mP (w x))) (hA hglt)
        · rw [hM] at hgle ⊢
          have hwe : w x ≤ child x (min beta0 M) := hc1 (lt_of_le_of_lt hgle hab)
          exact le_trans (le_trans (fullMinFold_le w rest _) (min_le_right mP (w x))) hwe
      · intro hgt
        exact absurd hgt (not_lt_of_le hgle)
    · rw [if_neg hcut]
      push_neg at hcut
      apply ih (min M (child x (min beta0 M))) (min (min beta0 M) (child x (min beta0 M)))
        (min mP (w x)) ?_ hcut ?_ ?_
      · rw [min_assoc]
      · intro hM'b
        rcases min_cases M (child x (min beta0 M)) with ⟨hM, hMe⟩ | ⟨hM, hMe⟩
        · rw [hM] at hM'b ⊢
          exact le_trans (min_le_left mP _) (hA hM'b)
        · rw [hM] at hM'b ⊢
          have hee : child x (min beta0 M) < min beta0 M := lt_min hM'b hMe
          exact le_trans (min_le_right mP _) (hc1 hee)
      · intro h0
        rcases min_cases M (child x (min beta0 M)) with ⟨hM, hMe⟩ | ⟨hM, hMe⟩
        · rw [hM] at h0 ⊢
          exact le_min (hB h0) (le_trans hMe (hc2 (lt_of_lt_of_le h0 hMe)))
        · rw [hM] at h0 ⊢
          exact le_min (le_trans (le_of_lt hMe) (hB (lt_trans h0 hMe))) (hc2 h0)

theorem minimax_km (s : GameState) (ai : Color) :
    ∀ (depth : Nat) (b : Board) (alpha beta : EVal) (isMax : Bool), alpha < beta →
      (minimax s ai depth b alpha beta isMax < beta →
          minimaxFull s ai depth b isMax ≤ minimax s ai depth b alpha beta isMax) ∧
        (alpha < minimax s ai depth b alpha beta isMax →
          minimax s ai depth b alpha beta isMax ≤ minimaxFull s ai depth b isMax) := by
  intro depth
  induction depth with
  | zero =>
    intro b alpha beta isMax hab
    have heq : minimax s ai 0 b alpha beta isMax = minimaxFull s ai 0 b isMax := rfl
    rw [heq]
    exact ⟨fun _ => le_refl _, fun _ => le_refl _⟩
  | succ d ih =>
    intro b alpha beta isMax hab
    simp only [minimax, minimaxFull]
    by_cases h : (getAllPossibleMoves s b (if isMax then ai else ai.opp)).isEmpty
    · rw [if_pos h, if_pos h]
      exact ⟨fun _ => le_refl _, fun _ => le_refl _⟩
    · rw [if_neg h, if_neg h]
      have htt : ((true = true) : Prop) = True := by simp
      have hft : ((false = true) : Prop) = False := by simp
      cases isMax with
      | true =>
        simp only [htt, if_true]
        exact abMaxLoop_km _ _ beta alpha
          (fun x a ha => ih (makeMoveOnBoard b x.fromSq.1 x.fromSq.2 x.toSq.1 x.toSq.2) a beta false ha)
          _ ⊥ alpha ⊥ (max_eq_left bot_le).symm hab
          (fun _ => le_refl _) (fun hc => absurd hc (not_lt_bot))
      | false =>
        simp only [hft, if_false]
        exact abMinLoop_km _ _ alpha beta
          (fun x bt hb => ih (makeMoveOnBoard b x.fromSq.1 x.fromSq.2 x.toSq.1 x.toSq.2) alpha bt true hb)
          _ ⊤ beta ⊤ (min_eq_left le_top).symm hab
          (fun hc => absurd hc not_top_lt) (fun _ => le_refl _)

theorem minimax_eq_full (s : GameState) (ai : Color) (depth : Nat) (b : Board) (isMax : Bool) :
    minimax s ai depth b ⊥ ⊤ isMax = minimaxFull s ai depth b isMax := by
  have hbt : (⊥ : EVal) < ⊤ := lt_of_lt_of_le (bot_lt_fq 0) le_top
  obtain ⟨h1, h2⟩ := minimax_km s ai depth b ⊥ ⊤ isMax hbt
  obtain ⟨hfin1, hfin2⟩ := minimax_finite s ai depth b ⊥ ⊤ isMax
  exact le_antisymm (h2 hfin1) (h1 hfin2)

/-- C4: alpha-beta pruning does not change results: with the full
(-Infinity, Infinity) window, minimax equals the full unpruned search at
every board, depth, color and orientation, and getBestMove's whole
move-plus-adjusted-value selection (same depth, same evaluation, same
repetition penalty) coincides with the selection over the full search. -/
theorem C4_pruning_equivalence :
    (∀ (s : GameState) (aiColor : Color) (depth : Nat) (board : Board) (isMaximizing : Bool),
        minimax s aiColor depth board ⊥ ⊤ isMaximizing =
          minimaxFull s aiColor depth board isMaximizing) ∧
      ∀ s : GameState, getBestPair s = getBestPairFull s := by
  refine ⟨fun s ai depth b m => minimax_eq_full s ai depth b m, fun s => ?_⟩
  unfold getBestPair getBestPairFull
  dsimp only
  have hval : topMoveValue s (searchDepth s.aiDifficulty) (lastAiMove s) =
      topMoveValueFull s (searchDepth s.aiDifficulty) (lastAiMove s) := by
    funext m
    unfold topMoveValue topMoveValueFull
    dsimp only
    rw [minimax_eq_full]
  rw [hval]

theorem le_f_bestFrom (f : MoveRec → EVal) :
    ∀ (l : List MoveRec) (m : MoveRec), f m ≤ f (bestFrom f m l) := by
  intro l
  induction l with
  | nil => intro m; exact le_refl _
  | cons x xs ih =>
    intro m
    simp only [bestFrom]
    by_cases h : f m < f x
    · rw [if_pos h]; exact le_trans (le_of_lt h) (ih x)
    · rw [if_neg h]; exact ih m

theorem bestFrom_swap (f : MoveRec → EVal) :
    ∀ (l : List MoveRec) (x m : MoveRec), f x ≤ f m →
      bestFrom f m l = if f m < f (bestFrom f x l) then bestFrom f x l else m := by
  intro l
  induction l with
  | nil =>
    intro x m hxm
    simp only [bestFrom]
    rw [if_neg (not_lt_of_le hxm)]
  | cons z zs ih =>
    intro x m hxm
    simp only [bestFrom]
    by_cases hz : f m < f z
    · rw [if_pos hz, if_pos (lt_of_le_of_lt hxm hz),
        if_pos (lt_of_lt_of_le hz (le_f_bestFrom f zs z))]
    · rw [if_neg hz]
      refine ih _ m ?_
      by_cases hxz : f x < f z
      · rw [if_pos hxz]; exact le_of_not_lt hz
      · rw [if_neg hxz]; exact hxm

theorem firstArgmax_eq_bestFrom (f : MoveRec → EVal) :
    ∀ (l : List MoveRec) (m : MoveRec), firstArgmax f (m :: l) = some (bestFrom f m l) := by
  intro l
  induction l with
  | nil => intro m; rfl
  | cons x xs ih =>
    intro m
    rw [show firstArgmax f (m :: x :: xs) =
        (match firstArgmax f (x :: xs) with
          | none => some m
          | some y => if f m < f y then some y else some m) from rfl, ih x]
    simp only [bestFrom]
    by_cases h : f m < f x
    · rw [if_pos h, if_pos (lt_of_lt_of_le h (le_f_bestFrom f xs x))]
    · rw [if_neg h, bestFrom_swap f xs x m (le_of_not_lt h)]
      by_cases h2 : f m < f (bestFrom f x xs)
      · rw [if_pos h2, if_pos h2]
      · rw [if_neg h2, if_neg h2]

theorem bestLoop_some (f : MoveRec → EVal) :
    ∀ (l : List MoveRec) (m : MoveRec),
      bestLoop f l (some m) (f m) = (some (bestFrom f m l), f (bestFrom f m l)) := by
  intro l
  induction l with
  | nil => intro m; rfl
  | cons x xs ih =>
    intro m
    simp only [bestLoop, bestFrom]
    by_cases h : f m < f x
    · rw [if_pos h, if_pos h]; exact ih x
    · rw [if_neg h, if_neg h]; exact ih m

theorem bot_lt_esub (v : EVal) (q : ℚ) (h : ⊥ < v) : ⊥ < esub v q := by
  cases v with
  | none => exact absurd h (lt_irrefl ⊥)
  | some w => exact WithBot.bot_lt_coe _

theorem bot_lt_topMoveValue (s : GameState) (d : Nat) (lm : Option HistMove) (m : MoveRec) :
    ⊥ < topMoveValue s d lm m := by
  unfold topMoveValue
  dsimp only
  by_cases h : reversesLast lm m = true
  · rw [if_pos h]
    exact bot_lt_esub _ _ (minimax_finite s .black (d - 1) _ ⊥ ⊤ false).1
  · rw [if_neg h]
    exact (minimax_finite s .black (d - 1) _ ⊥ ⊤ false).1

/-- C6: getBestMove returns exactly the first move, in MVV-LVA order, that
attains the strictly greatest adjusted value, where the adjusted value of a
move is minimax at depth-1 with maximizing = false (full window), minus 300
exactly when the move reverses the AI's preceding executed move (the
moveHistory entry two back); ties keep the first-encountered move. -/
theorem C6_selection (s : GameState) :
    getBestMove s =
      firstArgmax
        (fun m =>
          if reversesLast (lastAiMove s) m then
            esub (minimax s .black (searchDepth s.aiDifficulty - 1)
              (makeMoveOnBoard s.board m.fromSq.1 m.fromSq.2 m.toSq.1 m.toSq.2) ⊥ ⊤ false) 300
          else
            minimax s .black (searchDepth s.aiDifficulty - 1)
              (makeMoveOnBoard s.board m.fromSq.1 m.fromSq.2 m.toSq.1 m.toSq.2) ⊥ ⊤ false)
        (orderMoves (getAllPossibleMoves s s.board .black) s.board) := by
  have hf : (fun m =>
      if reversesLast (lastAiMove s) m then
        esub (minimax s .black (searchDepth s.aiDifficulty - 1)
          (makeMoveOnBoard s.board m.fromSq.1 m.fromSq.2 m.toSq.1 m.toSq.2) ⊥ ⊤ false) 300
      else
        minimax s .black (searchDepth s.aiDifficulty - 1)
          (makeMoveOnBoard s.board m.fromSq.1 m.fromSq.2 m.toSq.1 m.toSq.2) ⊥ ⊤ false) =
      topMoveValue s (searchDepth s.aiDifficulty) (lastAiMove s) := by
    funext m
    unfold topMoveValue
    dsimp only
  rw [hf]
  unfold getBestMove getBestPair
  dsimp only
  by_cases h : (getAllPossibleMoves s s.board Color.black).isEmpty
  · rw [if_pos h]
    have hl : getAllPossibleMoves s s.board Color.black = [] := by
      simpa using h
    rw [hl]
    rfl
  · rw [if_neg h]
    cases hor : orderMoves (getAllPossibleMoves s s.board Color.black) s.board with
    | nil =>
      exact absurd hor (orderMoves_ne_nil _ _ (by simpa using h))
    | cons z rest =>
      simp only [bestLoop]
      rw [if_pos (bot_lt_topMoveValue s (searchDepth s.aiDifficulty) (lastAiMove s) z),
        bestLoop_some, firstArgmax_eq_bestFrom]

theorem mem_insertByScore (board : Board) (m x : MoveRec) :
    ∀ (l : List MoveRec), x ∈ insertByScore board m l → x = m ∨ x ∈ l := by
  intro l
  induction l with
  | nil =>
    intro h
    simp [insertByScore] at h
    exact Or.inl h
  | cons z zs ih =>
    intro h
    unfold insertByScore at h
    by_cases hc : mvvScore board z ≤ mvvScore board m
    · rw [if_pos hc] at h
      rcases List.mem_cons.mp h with h1 | h1
      · exact Or.inl h1
      · exact Or.inr h1
    · rw [if_neg hc] at h
      rcases List.mem_cons.mp h with h1 | h1
      · exact Or.inr (h1 ▸ List.mem_cons_self z zs)
      · rcases ih h1 with h2 | h2
        · exact Or.inl h2
        · exact Or.inr (List.mem_cons_of_mem z h2)

theorem mem_orderMoves (board : Board) (x : MoveRec) :
    ∀ (l : List MoveRec), x ∈ orderMoves l board → x ∈ l := by
  intro l
  induction l with
  | nil => intro h; simp [orderMoves] at h
  | cons z zs ih =>
    intro h
    have h2 : x ∈ insertByScore board z (orderMoves zs board) := h
    rcases mem_insertByScore board z x _ h2 with h3 | h3
    · exact h3 ▸ List.mem_cons_self z zs
    · exact List.mem_cons_of_mem z (ih h3)

theorem bestLoop_mem (f : MoveRec → EVal) :
    ∀ (l : List MoveRec) (best : Option MoveRec) (bv : EVal) (m : MoveRec),
      (bestLoop f l best bv).1 = some m → best = some m ∨ m ∈ l := by
  intro l
  induction l with
  | nil => intro best bv m h; exact Or.inl h
  | cons x xs ih =>
    intro best bv m h
    simp only [bestLoop] at h
    by_cases hc : bv < f x
    · rw [if_pos hc] at h
      rcases ih (some x) (f x) m h with h1 | h1
      · exact Or.inr ((Option.some.inj h1) ▸ List.mem_cons_self x xs)
      · exact Or.inr (List.mem_cons_of_mem x h1)
    · rw [if_neg hc] at h
      rcases ih best bv m h with h1 | h1
      · exact Or.inl h1
      · exact Or.inr (List.mem_cons_of_mem x h1)

theorem getAllPossibleMoves_origin (s : GameState) (b : Board) (color : Color) (m : MoveRec)
    (h : m ∈ getAllPossibleMoves s b color) :
    ∃ p : Piece, bget b m.fromSq.1 m.fromSq.2 = some p ∧ p.color = color := by
  unfold getAllPossibleMoves at h
  rw [List.mem_flatMap] at h
  obtain ⟨rc, hrc, hm⟩ := h
  cases hb : bget b rc.1 rc.2 with
  | none => rw [hb] at hm; simp at hm
  | some piece =>
    rw [hb] at hm
    dsimp only at hm
    by_cases hc : (piece.color == color) = true
    · rw [if_pos hc] at hm
      rw [List.mem_map] at hm
      obtain ⟨mv, _, hmv⟩ := hm
      refine ⟨piece, ?_, by simpa using hc⟩
      rw [← hmv]
      exact hb
    · rw [if_neg hc] at hm
      simp at hm

theorem makeMove_trigger (s : GameState) (fr fc tr tc : Int) (s' : GameState) (trig : Bool)
    (h : makeMove s fr fc tr tc = some (s', trig)) : trig = aiMoveTriggered s' := by
  unfold makeMove at h
  cases hb : bget s.board fr fc with
  | none => rw [hb] at h; exact absurd h (by simp)
  | some piece =>
    rw [hb] at h
    dsimp only at h
    rw [Option.some.injEq, Prod.mk.injEq] at h
    obtain ⟨h1, h2⟩ := h
    rw [← h2, h1]

theorem aiMoveTriggered_iff (s' : GameState) :
    aiMoveTriggered s' = true ↔
      (s'.gameMode = .pvc ∧ s'.currentTurn = .black ∧
        (s'.gameStatus = .active ∨ s'.gameStatus = .check)) := by
  unfold aiMoveTriggered
  cases hm : s'.gameMode <;> cases ht : s'.currentTurn <;> cases hs : s'.gameStatus <;> simp

/-- C10: the AI always plays black: every move getBestMove returns (its
aiColor is the constant black) originates from a square holding a black
piece, and makeMove's computer-move trigger fires exactly when the game mode
is pvc, the side to move after the executed move is black, and the status is
active or check — so the AI never selects or executes a move for white. -/
theorem C10_ai_plays_black :
    (∀ (s : GameState) (m : MoveRec), getBestMove s = some m →
      ∃ p : Piece, bget s.board m.fromSq.1 m.fromSq.2 = some p ∧ p.color = Color.black) ∧
    ∀ (s : GameState) (fr fc tr tc : Int) (s' : GameState) (trig : Bool),
      makeMove s fr fc tr tc = some (s', trig) →
      (trig = true ↔ (s'.gameMode = .pvc ∧ s'.currentTurn = .black ∧
        (s'.gameStatus = .active ∨ s'.gameStatus = .check))) := by
  constructor
  · intro s m h
    unfold getBestMove getBestPair at h
    dsimp only at h
    by_cases hemp : (getAllPossibleMoves s s.board Color.black).isEmpty
    · rw [if_pos hemp] at h
      simp at h
    · rw [if_neg hemp] at h
      rcases bestLoop_mem _ _ _ _ _ h with h1 | h1
      · exact absurd h1 (by simp)
      · exact getAllPossibleMoves_origin s s.board Color.black m (mem_orderMoves _ _ _ h1)
  · intro s fr fc tr tc s' trig h
    rw [makeMove_trigger s fr fc tr tc s' trig h]
    exact aiMoveTriggered_iff s'

/-- C10 witness: the theorem applied to a concrete search (black king and
pawn versus white king, where getBestMove picks the black king move
(0,7) to (1,6)) and to the concrete executed move e2-e4. -/
theorem C10_witness :
    getBestMove c10State = some c10Best ∧
      (∃ p : Piece, bget c10State.board c10Best.fromSq.1 c10Best.fromSq.2 = some p ∧
        p.color = Color.black) ∧
      ∃ (s' : GameState) (trig : Bool), makeMove freshGameState 6 4 4 4 = some (s', trig) ∧
        (trig = true ↔ (s'.gameMode = .pvc ∧ s'.currentTurn = .black ∧
          (s'.gameStatus = .active ∨ s'.gameStatus = .check))) := by
  have hbm : getBestMove c10State = some c10Best := by decide
  have hsm : (makeMove freshGameState 6 4 4 4).isSome = true := by decide
  refine ⟨hbm, C10_ai_plays_black.1 c10State c10Best hbm, ?_⟩
  cases hmk : makeMove freshGameState 6 4 4 4 with
  | none => rw [hmk] at hsm; simp at hsm
  | some pr =>
    obtain ⟨s2, trig2⟩ := pr
    exact ⟨s2, trig2, rfl, C10_ai_plays_black.2 freshGameState 6 4 4 4 s2 trig2 hmk⟩

end MainProofs

end ChessGame
